import Mathlib

/-!
# Verification of the NoteG language toolchain (eclipse-ssg)

Shallow embedding of:
* `src/noteg-lang/src/parser.ts` — recursive-descent parser (`Parser`),
* the language server (`server.ts`): document store, `analyze`,
  `getCompletions`, `getHover`, and the stdio transport framing loop,
* the Scanner (`lexer.ts` is not part of the sources; it is modelled from
  the specification, section 4.1).

The parser is embedded as a family of mutually recursive functions over an
explicit token position, using a fuel parameter for structural recursion.
Running out of fuel is reported as the distinguished error
`PError.outOfFuel`; a dedicated theorem shows that the fuel budget used by
the top-level entry point `parseTokens` is always sufficient, so the fuel
is an artifact of the embedding, not of the program.
-/

namespace NoteG

/-- Token kinds, as referenced by `parser.ts` and `lexer_test.ts`. -/
inductive TokenType where
  | LET | FN | IF | ELSE | FOR | WHILE | RETURN | TRUE | FALSE
  | AND | OR | NOT
  | IDENTIFIER | NUMBER | STRING
  | ASSIGN | EQ | NEQ | LT | GT | LTE | GTE
  | PLUS | MINUS | STAR | SLASH | PERCENT | ARROW
  | LPAREN | RPAREN | LBRACE | RBRACE | LBRACKET | RBRACKET | COMMA
  | TEMPLATE_START | TEMPLATE_END
  | ERROR | EOF
deriving DecidableEq, Repr

/-- A scanner token: kind, literal text, line and column (1-based). -/
structure Token where
  type : TokenType
  value : String
  line : Nat
  column : Nat
deriving DecidableEq, Repr

/-- The value stored in a `Literal` AST node (`string | number | boolean |
null` in the source).  Numeric literals keep the raw source text of the
number (`parseFloat` is not modelled; no verified property inspects the
numeric value). -/
inductive LitValue where
  | str (s : String)
  | num (raw : String)
  | bool (b : Bool)
  | nullV
deriving DecidableEq, Repr

/-- AST nodes, one constructor per variant of `ASTNode` in `parser.ts`.
The source field named `variable` (on `ForNode` and `TemplateNode`) is
called `varName` here because `variable` is reserved in Lean. -/
inductive AST where
  | Program (body : List AST)
  | Let (name : String) (value : AST)
  | Function (name : String) (params : List String) (body : AST)
  | If (condition : AST) (thenBranch : AST) (elseBranch : Option AST)
  | For (varName : String) (iterable : AST) (body : AST)
  | While (condition : AST) (body : AST)
  | Return (value : Option AST)
  | BinaryExpr (operator : String) (left : AST) (right : AST)
  | UnaryExpr (operator : String) (operand : AST)
  | Call (callee : AST) (args : List AST)
  | Identifier (name : String)
  | Literal (value : LitValue)
  | Array (elements : List AST)
  | Object (properties : List (String × AST))
  | Template (varName : String)
  | Block (statements : List AST)
deriving Repr

/-- Parser failure.  The source throws `Error` objects; the two throw sites
carry different data: `consume` throws `` `${message} at line ${line}` ``
(constructor `expectedTok`), `primary` throws
`` `Unexpected token: ${type}` `` (constructor `unexpectedToken`, which has
no line information).  `outOfFuel` is an artifact of the fuel-based
embedding and is proved unreachable for the fuel used by `parseTokens`. -/
inductive PError where
  | expectedTok (message : String) (line : Nat)
  | unexpectedToken (t : TokenType)
  | outOfFuel
deriving DecidableEq, Repr

/-- Rendering of a token type for error messages.  The source interpolates
the TypeScript enum value; its exact spelling is not in the sources, so the
constructor name is used.  No rendering contains the text `at line`
followed by a digit, which is the only property relied upon. -/
def typeName : TokenType → String
  | .LET => "LET" | .FN => "FN" | .IF => "IF" | .ELSE => "ELSE"
  | .FOR => "FOR" | .WHILE => "WHILE" | .RETURN => "RETURN"
  | .TRUE => "TRUE" | .FALSE => "FALSE"
  | .AND => "AND" | .OR => "OR" | .NOT => "NOT"
  | .IDENTIFIER => "IDENTIFIER" | .NUMBER => "NUMBER" | .STRING => "STRING"
  | .ASSIGN => "ASSIGN" | .EQ => "EQ" | .NEQ => "NEQ"
  | .LT => "LT" | .GT => "GT" | .LTE => "LTE" | .GTE => "GTE"
  | .PLUS => "PLUS" | .MINUS => "MINUS" | .STAR => "STAR"
  | .SLASH => "SLASH" | .PERCENT => "PERCENT" | .ARROW => "ARROW"
  | .LPAREN => "LPAREN" | .RPAREN => "RPAREN"
  | .LBRACE => "LBRACE" | .RBRACE => "RBRACE"
  | .LBRACKET => "LBRACKET" | .RBRACKET => "RBRACKET" | .COMMA => "COMMA"
  | .TEMPLATE_START => "TEMPLATE_START" | .TEMPLATE_END => "TEMPLATE_END"
  | .ERROR => "ERROR" | .EOF => "EOF"

/-- The message carried by the thrown `Error`, as built at each throw site
(`consume` appends `at line N`; `primary` does not). -/
def errorMessage : PError → String
  | .expectedTok m line => m ++ " at line " ++ toString line
  | .unexpectedToken t => "Unexpected token: " ++ typeName t
  | .outOfFuel => "out of fuel"

/-- Default token returned when peeking past the end of the token list.
A well-formed token stream ends with an `EOF` token, so on such streams
this default is never produced at a position the parser visits with
different behavior than the real `tokens[pos]`. -/
def eofDefault : Token := { type := .EOF, value := "", line := 0, column := 0 }

/-- `Parser.peek` (`parser.ts:431`). -/
def peekT (tk : List Token) (pos : Nat) : Token := tk.getD pos eofDefault

/-- `Parser.isAtEnd` (`parser.ts:439`). -/
def isAtEndT (tk : List Token) (pos : Nat) : Bool := (peekT tk pos).type == .EOF

/-- `Parser.check` (`parser.ts:413`). -/
def checkT (tk : List Token) (pos : Nat) (t : TokenType) : Bool :=
  !isAtEndT tk pos && (peekT tk pos).type == t

/-- Position after `Parser.advance` (`parser.ts:417`): the position moves
forward only when not at end. -/
def advancePos (tk : List Token) (pos : Nat) : Nat :=
  if isAtEndT tk pos then pos else pos + 1

/-- `Parser.consume` (`parser.ts:424`): returns the consumed token and the
new position, or fails with the message and the line of the token that was
actually found. -/
def consumeT (tk : List Token) (pos : Nat) (t : TokenType) (message : String) :
    Except PError (Token × Nat) :=
  if checkT tk pos t then .ok (peekT tk pos, pos + 1)
  else .error (.expectedTok message (peekT tk pos).line)

/-- Parse results: a value together with the position after it. -/
abbrev PRes (α : Type) := Except PError (α × Nat)

mutual

/-- `Parser.expression` (`parser.ts:257`). -/
def expression (f : Nat) (tk : List Token) (pos : Nat) : PRes AST :=
  match f with
  | 0 => .error .outOfFuel
  | f + 1 => orExpr f tk pos
termination_by structural f

/-- `Parser.or` (`parser.ts:261`). -/
def orExpr (f : Nat) (tk : List Token) (pos : Nat) : PRes AST :=
  match f with
  | 0 => .error .outOfFuel
  | f + 1 =>
    match andExpr f tk pos with
    | .error e => .error e
    | .ok (l, p) => orLoop f tk l p
termination_by structural f

/-- The `while (this.match(OR))` loop inside `Parser.or`. -/
def orLoop (f : Nat) (tk : List Token) (left : AST) (pos : Nat) : PRes AST :=
  match f with
  | 0 => .error .outOfFuel
  | f + 1 =>
    if checkT tk pos .OR then
      match andExpr f tk (pos + 1) with
      | .error e => .error e
      | .ok (r, p) => orLoop f tk (.BinaryExpr "or" left r) p
    else .ok (left, pos)
termination_by structural f

/-- `Parser.and` (`parser.ts:272`). -/
def andExpr (f : Nat) (tk : List Token) (pos : Nat) : PRes AST :=
  match f with
  | 0 => .error .outOfFuel
  | f + 1 =>
    match equality f tk pos with
    | .error e => .error e
    | .ok (l, p) => andLoop f tk l p
termination_by structural f

/-- The `while (this.match(AND))` loop inside `Parser.and`. -/
def andLoop (f : Nat) (tk : List Token) (left : AST) (pos : Nat) : PRes AST :=
  match f with
  | 0 => .error .outOfFuel
  | f + 1 =>
    if checkT tk pos .AND then
      match equality f tk (pos + 1) with
      | .error e => .error e
      | .ok (r, p) => andLoop f tk (.BinaryExpr "and" left r) p
    else .ok (left, pos)
termination_by structural f

/-- `Parser.equality` (`parser.ts:283`). -/
def equality (f : Nat) (tk : List Token) (pos : Nat) : PRes AST :=
  match f with
  | 0 => .error .outOfFuel
  | f + 1 =>
    match comparison f tk pos with
    | .error e => .error e
    | .ok (l, p) => equalityLoop f tk l p
termination_by structural f

/-- The `while (this.match(EQ, NEQ))` loop inside `Parser.equality`; the
operator string is the matched token's text (`previous().value`). -/
def equalityLoop (f : Nat) (tk : List Token) (left : AST) (pos : Nat) : PRes AST :=
  match f with
  | 0 => .error .outOfFuel
  | f + 1 =>
    if checkT tk pos .EQ || checkT tk pos .NEQ then
      match comparison f tk (pos + 1) with
      | .error e => .error e
      | .ok (r, p) =>
        equalityLoop f tk (.BinaryExpr (peekT tk pos).value left r) p
    else .ok (left, pos)
termination_by structural f

/-- `Parser.comparison` (`parser.ts:295`). -/
def comparison (f : Nat) (tk : List Token) (pos : Nat) : PRes AST :=
  match f with
  | 0 => .error .outOfFuel
  | f + 1 =>
    match term f tk pos with
    | .error e => .error e
    | .ok (l, p) => comparisonLoop f tk l p
termination_by structural f

/-- The `while (this.match(LT, GT, LTE, GTE))` loop inside
`Parser.comparison`. -/
def comparisonLoop (f : Nat) (tk : List Token) (left : AST) (pos : Nat) : PRes AST :=
  match f with
  | 0 => .error .outOfFuel
  | f + 1 =>
    if checkT tk pos .LT || checkT tk pos .GT ||
        checkT tk pos .LTE || checkT tk pos .GTE then
      match term f tk (pos + 1) with
      | .error e => .error e
      | .ok (r, p) =>
        comparisonLoop f tk (.BinaryExpr (peekT tk pos).value left r) p
    else .ok (left, pos)
termination_by structural f

/-- `Parser.term` (`parser.ts:307`). -/
def term (f : Nat) (tk : List Token) (pos : Nat) : PRes AST :=
  match f with
  | 0 => .error .outOfFuel
  | f + 1 =>
    match factor f tk pos with
    | .error e => .error e
    | .ok (l, p) => termLoop f tk l p
termination_by structural f

/-- The `while (this.match(PLUS, MINUS))` loop inside `Parser.term`. -/
def termLoop (f : Nat) (tk : List Token) (left : AST) (pos : Nat) : PRes AST :=
  match f with
  | 0 => .error .outOfFuel
  | f + 1 =>
    if checkT tk pos .PLUS || checkT tk pos .MINUS then
      match factor f tk (pos + 1) with
      | .error e => .error e
      | .ok (r, p) =>
        termLoop f tk (.BinaryExpr (peekT tk pos).value left r) p
    else .ok (left, pos)
termination_by structural f

/-- `Parser.factor` (`parser.ts:319`). -/
def factor (f : Nat) (tk : List Token) (pos : Nat) : PRes AST :=
  match f with
  | 0 => .error .outOfFuel
  | f + 1 =>
    match unary f tk pos with
    | .error e => .error e
    | .ok (l, p) => factorLoop f tk l p
termination_by structural f

/-- The `while (this.match(STAR, SLASH, PERCENT))` loop inside
`Parser.factor`. -/
def factorLoop (f : Nat) (tk : List Token) (left : AST) (pos : Nat) : PRes AST :=
  match f with
  | 0 => .error .outOfFuel
  | f + 1 =>
    if checkT tk pos .STAR || checkT tk pos .SLASH || checkT tk pos .PERCENT then
      match unary f tk (pos + 1) with
      | .error e => .error e
      | .ok (r, p) =>
        factorLoop f tk (.BinaryExpr (peekT tk pos).value left r) p
    else .ok (left, pos)
termination_by structural f

/-- `Parser.unary` (`parser.ts:331`). -/
def unary (f : Nat) (tk : List Token) (pos : Nat) : PRes AST :=
  match f with
  | 0 => .error .outOfFuel
  | f + 1 =>
    if checkT tk pos .NOT || checkT tk pos .MINUS then
      match unary f tk (pos + 1) with
      | .error e => .error e
      | .ok (op, p) => .ok (.UnaryExpr (peekT tk pos).value op, p)
    else callExpr f tk pos
termination_by structural f

/-- `Parser.call` (`parser.ts:341`). -/
def callExpr (f : Nat) (tk : List Token) (pos : Nat) : PRes AST :=
  match f with
  | 0 => .error .outOfFuel
  | f + 1 =>
    match primary f tk pos with
    | .error e => .error e
    | .ok (e, p) => callLoop f tk e p
termination_by structural f

/-- The `while (true) (match(LPAREN) ...)` loop inside `Parser.call`. -/
def callLoop (f : Nat) (tk : List Token) (callee : AST) (pos : Nat) : PRes AST :=
  match f with
  | 0 => .error .outOfFuel
  | f + 1 =>
    if checkT tk pos .LPAREN then
      match
        (if checkT tk (pos + 1) .RPAREN then (.ok ([], pos + 1) : PRes (List AST))
         else argsLoop f tk (pos + 1)) with
      | .error e => .error e
      | .ok (args, p) =>
        match consumeT tk p .RPAREN "Expected ')' after arguments" with
        | .error e => .error e
        | .ok (_, p2) => callLoop f tk (.Call callee args) p2
    else .ok (callee, pos)
termination_by structural f

/-- The `do args.push(expression()) while (match(COMMA))` loop inside
`Parser.call`. -/
def argsLoop (f : Nat) (tk : List Token) (pos : Nat) : PRes (List AST) :=
  match f with
  | 0 => .error .outOfFuel
  | f + 1 =>
    match expression f tk pos with
    | .error e => .error e
    | .ok (a, p) =>
      if checkT tk p .COMMA then
        match argsLoop f tk (p + 1) with
        | .error e => .error e
        | .ok (rest, p2) => .ok (a :: rest, p2)
      else .ok ([a], p)
termination_by structural f

/-- `Parser.primary` (`parser.ts:362`). -/
def primary (f : Nat) (tk : List Token) (pos : Nat) : PRes AST :=
  match f with
  | 0 => .error .outOfFuel
  | f + 1 =>
    if checkT tk pos .TRUE then .ok (.Literal (.bool true), pos + 1)
    else if checkT tk pos .FALSE then .ok (.Literal (.bool false), pos + 1)
    else if checkT tk pos .NUMBER then .ok (.Literal (.num (peekT tk pos).value), pos + 1)
    else if checkT tk pos .STRING then .ok (.Literal (.str (peekT tk pos).value), pos + 1)
    else if checkT tk pos .IDENTIFIER then .ok (.Identifier (peekT tk pos).value, pos + 1)
    else if checkT tk pos .TEMPLATE_START then
      match consumeT tk (pos + 1) .IDENTIFIER "Expected variable name" with
      | .error e => .error e
      | .ok (v, p) =>
        match consumeT tk p .TEMPLATE_END "Expected '\x7d\x7d'" with
        | .error e => .error e
        | .ok (_, p2) => .ok (.Template v.value, p2)
    else if checkT tk pos .LBRACKET then
      match
        (if checkT tk (pos + 1) .RBRACKET then (.ok ([], pos + 1) : PRes (List AST))
         else elemsLoop f tk (pos + 1)) with
      | .error e => .error e
      | .ok (els, p) =>
        match consumeT tk p .RBRACKET "Expected ']'" with
        | .error e => .error e
        | .ok (_, p2) => .ok (.Array els, p2)
    else if checkT tk pos .LPAREN then
      match expression f tk (pos + 1) with
      | .error e => .error e
      | .ok (e, p) =>
        match consumeT tk p .RPAREN "Expected ')'" with
        | .error e => .error e
        | .ok (_, p2) => .ok (e, p2)
    else .error (.unexpectedToken (peekT tk pos).type)
termination_by structural f

/-- The `do elements.push(expression()) while (match(COMMA))` loop inside
`Parser.primary`'s array case. -/
def elemsLoop (f : Nat) (tk : List Token) (pos : Nat) : PRes (List AST) :=
  match f with
  | 0 => .error .outOfFuel
  | f + 1 =>
    match expression f tk pos with
    | .error e => .error e
    | .ok (a, p) =>
      if checkT tk p .COMMA then
        match elemsLoop f tk (p + 1) with
        | .error e => .error e
        | .ok (rest, p2) => .ok (a :: rest, p2)
      else .ok ([a], p)
termination_by structural f

/-- `Parser.declaration` (`parser.ts:146`). -/
def declaration (f : Nat) (tk : List Token) (pos : Nat) : PRes AST :=
  match f with
  | 0 => .error .outOfFuel
  | f + 1 =>
    if checkT tk pos .LET then letDeclaration f tk pos
    else if checkT tk pos .FN then functionDeclaration f tk pos
    else statement f tk pos
termination_by structural f

/-- `Parser.letDeclaration` (`parser.ts:156`). -/
def letDeclaration (f : Nat) (tk : List Token) (pos : Nat) : PRes AST :=
  match f with
  | 0 => .error .outOfFuel
  | f + 1 =>
    let p0 := advancePos tk pos
    match consumeT tk p0 .IDENTIFIER "Expected variable name" with
    | .error e => .error e
    | .ok (nameTok, p1) =>
      match consumeT tk p1 .ASSIGN "Expected '=' after variable name" with
      | .error e => .error e
      | .ok (_, p2) =>
        match expression f tk p2 with
        | .error e => .error e
        | .ok (v, p3) => .ok (.Let nameTok.value v, p3)

/-- `Parser.functionDeclaration` (`parser.ts:164`). -/
def functionDeclaration (f : Nat) (tk : List Token) (pos : Nat) : PRes AST :=
  match f with
  | 0 => .error .outOfFuel
  | f + 1 =>
    let p0 := advancePos tk pos
    match consumeT tk p0 .IDENTIFIER "Expected function name" with
    | .error e => .error e
    | .ok (nameTok, p1) =>
      match consumeT tk p1 .LPAREN "Expected '(' after function name" with
      | .error e => .error e
      | .ok (_, p2) =>
        match
          (if checkT tk p2 .RPAREN then (.ok ([], p2) : Except PError (List String × Nat))
           else paramsLoop f tk p2) with
        | .error e => .error e
        | .ok (params, p3) =>
          match consumeT tk p3 .RPAREN "Expected ')' after parameters" with
          | .error e => .error e
          | .ok (_, p4) =>
            match block f tk p4 with
            | .error e => .error e
            | .ok (b, p5) => .ok (.Function nameTok.value params b, p5)
termination_by structural f

/-- The `do params.push(consume(IDENTIFIER)) while (match(COMMA))` loop
inside `Parser.functionDeclaration`. -/
def paramsLoop (f : Nat) (tk : List Token) (pos : Nat) :
    Except PError (List String × Nat) :=
  match f with
  | 0 => .error .outOfFuel
  | f + 1 =>
    match consumeT tk pos .IDENTIFIER "Expected parameter name" with
    | .error e => .error e
    | .ok (t, p) =>
      if checkT tk p .COMMA then
        match paramsLoop f tk (p + 1) with
        | .error e => .error e
        | .ok (rest, p2) => .ok (t.value :: rest, p2)
      else .ok ([t.value], p)
termination_by structural f

/-- `Parser.statement` (`parser.ts:181`). -/
def statement (f : Nat) (tk : List Token) (pos : Nat) : PRes AST :=
  match f with
  | 0 => .error .outOfFuel
  | f + 1 =>
    if checkT tk pos .IF then ifStatement f tk pos
    else if checkT tk pos .FOR then forStatement f tk pos
    else if checkT tk pos .WHILE then whileStatement f tk pos
    else if checkT tk pos .RETURN then returnStatement f tk pos
    else if checkT tk pos .LBRACE then block f tk pos
    else expression f tk pos
termination_by structural f

/-- `Parser.ifStatement` (`parser.ts:200`). -/
def ifStatement (f : Nat) (tk : List Token) (pos : Nat) : PRes AST :=
  match f with
  | 0 => .error .outOfFuel
  | f + 1 =>
    let p0 := advancePos tk pos
    match expression f tk p0 with
    | .error e => .error e
    | .ok (c, p1) =>
      match block f tk p1 with
      | .error e => .error e
      | .ok (t, p2) =>
        if checkT tk p2 .ELSE then
          match
            (if checkT tk (p2 + 1) .IF then ifStatement f tk (p2 + 1)
             else block f tk (p2 + 1)) with
          | .error e => .error e
          | .ok (els, p3) => .ok (.If c t (some els), p3)
        else .ok (.If c t none, p2)
termination_by structural f

/-- `Parser.forStatement` (`parser.ts:217`).  Note that the token in the
`in` slot is consumed by kind (`IDENTIFIER`) only; its text is never
compared against `"in"` and the consumed token is discarded. -/
def forStatement (f : Nat) (tk : List Token) (pos : Nat) : PRes AST :=
  match f with
  | 0 => .error .outOfFuel
  | f + 1 =>
    let p0 := advancePos tk pos
    match consumeT tk p0 .IDENTIFIER "Expected variable name" with
    | .error e => .error e
    | .ok (v, p1) =>
      match consumeT tk p1 .IDENTIFIER "Expected 'in'" with
      | .error e => .error e
      | .ok (_, p2) =>
        match expression f tk p2 with
        | .error e => .error e
        | .ok (it, p3) =>
          match block f tk p3 with
          | .error e => .error e
          | .ok (b, p4) => .ok (.For v.value it b, p4)
termination_by structural f

/-- `Parser.whileStatement` (`parser.ts:226`). -/
def whileStatement (f : Nat) (tk : List Token) (pos : Nat) : PRes AST :=
  match f with
  | 0 => .error .outOfFuel
  | f + 1 =>
    let p0 := advancePos tk pos
    match expression f tk p0 with
    | .error e => .error e
    | .ok (c, p1) =>
      match block f tk p1 with
      | .error e => .error e
      | .ok (b, p2) => .ok (.While c b, p2)
termination_by structural f

/-- `Parser.returnStatement` (`parser.ts:233`): the value is omitted
exactly when the next token is a closing brace or end-of-input. -/
def returnStatement (f : Nat) (tk : List Token) (pos : Nat) : PRes AST :=
  match f with
  | 0 => .error .outOfFuel
  | f + 1 =>
    let p0 := advancePos tk pos
    if !checkT tk p0 .RBRACE && !isAtEndT tk p0 then
      match expression f tk p0 with
      | .error e => .error e
      | .ok (v, p1) => .ok (.Return (some v), p1)
    else .ok (.Return none, p0)

/-- `Parser.block` (`parser.ts:242`). -/
def block (f : Nat) (tk : List Token) (pos : Nat) : PRes AST :=
  match f with
  | 0 => .error .outOfFuel
  | f + 1 =>
    match consumeT tk pos .LBRACE "Expected '\x7b'" with
    | .error e => .error e
    | .ok (_, p0) =>
      match blockLoop f tk p0 with
      | .error e => .error e
      | .ok (sts, p1) =>
        match consumeT tk p1 .RBRACE "Expected '\x7d'" with
        | .error e => .error e
        | .ok (_, p2) => .ok (.Block sts, p2)
termination_by structural f

/-- The `while (!check(RBRACE) && !isAtEnd())` loop inside `Parser.block`. -/
def blockLoop (f : Nat) (tk : List Token) (pos : Nat) :
    Except PError (List AST × Nat) :=
  match f with
  | 0 => .error .outOfFuel
  | f + 1 =>
    if !checkT tk pos .RBRACE && !isAtEndT tk pos then
      match declaration f tk pos with
      | .error e => .error e
      | .ok (s, p) =>
        match blockLoop f tk p with
        | .error e => .error e
        | .ok (rest, p2) => .ok (s :: rest, p2)
    else .ok ([], pos)
termination_by structural f

/-- The `while (!isAtEnd())` loop of `Parser.parse` (`parser.ts:133`). -/
def parseLoop (f : Nat) (tk : List Token) (pos : Nat) :
    Except PError (List AST × Nat) :=
  match f with
  | 0 => .error .outOfFuel
  | f + 1 =>
    if isAtEndT tk pos then .ok ([], pos)
    else
      match declaration f tk pos with
      | .error e => .error e
      | .ok (s, p) =>
        match parseLoop f tk p with
        | .error e => .error e
        | .ok (rest, p2) => .ok (s :: rest, p2)
termination_by structural f

end

/-- Fuel budget used by `parseTokens`; proved sufficient below. -/
def parseBound (tk : List Token) : Nat := 40 * (tk.length + 1) + 40

/-- `Parser.parse` (`parser.ts:133`): the whole-program entry point. -/
def parseTokens (tk : List Token) : Except PError AST :=
  match parseLoop (parseBound tk) tk 0 with
  | .error e => .error e
  | .ok (body, _) => .ok (.Program body)

/-! ## Scanner, modelled from the spec (section 4.1) -/

/-- Identifier start characters: `[A-Za-z_]`. -/
def isIdentStart (c : Char) : Bool := c.isAlpha || c == '_'

/-- Identifier continuation characters: `[A-Za-z0-9_]` (also the JS `\w`
class used by the hover word regex). -/
def isIdentChar (c : Char) : Bool := c.isAlphanum || c == '_'

/-- Modelled from the spec: the Scanner's fixed keyword table; `lexer.ts`
is not under the sources, so this follows section 4.1 and the keyword
list exercised by `lexer_test.ts`.  Note `in` is absent: it scans as a
plain identifier (which is what `Parser.forStatement` relies on). -/
def keywordType (s : String) : Option TokenType :=
  if s == "let" then some .LET
  else if s == "fn" then some .FN
  else if s == "if" then some .IF
  else if s == "else" then some .ELSE
  else if s == "for" then some .FOR
  else if s == "while" then some .WHILE
  else if s == "return" then some .RETURN
  else if s == "true" then some .TRUE
  else if s == "false" then some .FALSE
  else if s == "and" then some .AND
  else if s == "or" then some .OR
  else if s == "not" then some .NOT
  else none

/-- Modelled from the spec: single-character delimiter/operator tokens. -/
def singleCharType (c : Char) : Option TokenType :=
  if c == '=' then some .ASSIGN
  else if c == '!' then some .NOT
  else if c == '<' then some .LT
  else if c == '>' then some .GT
  else if c == '+' then some .PLUS
  else if c == '-' then some .MINUS
  else if c == '*' then some .STAR
  else if c == '/' then some .SLASH
  else if c == '%' then some .PERCENT
  else if c == '(' then some .LPAREN
  else if c == ')' then some .RPAREN
  else if c == '\x7b' then some .LBRACE
  else if c == '\x7d' then some .RBRACE
  else if c == '[' then some .LBRACKET
  else if c == ']' then some .RBRACKET
  else if c == ',' then some .COMMA
  else none

/-- `true` when the list starts with the given character. -/
def headIs (cs : List Char) (c : Char) : Bool :=
  match cs with
  | x :: _ => x == c
  | [] => false

/-- Modelled from the spec: string-literal scanning.  Consumes up to the
terminating quote `q`; a backslash escapes the following character.
Returns the content, the remainder after the terminator and whether the
terminator was found (`false` means an unterminated string). -/
def scanStr (q : Char) : Nat → List Char → List Char × List Char × Bool
  | 0, cs => ([], cs, false)
  | _ + 1, [] => ([], [], false)
  | f + 1, c :: cs =>
    if c == q then ([], cs, true)
    else if c == '\\' then
      match cs with
      | [] => (['\\'], [], false)
      | e :: cs2 =>
        let r := scanStr q f cs2
        (e :: r.1, r.2.1, r.2.2)
    else
      let r := scanStr q f cs
      (c :: r.1, r.2.1, r.2.2)

/-- Modelled from the spec: the Scanner loop (`Lexer.tokenize`,
`lexer.ts` not under the sources; section 4.1 and `lexer_test.ts`).
Single pass over the characters with 1-based line/column bookkeeping;
newlines are tracked but not emitted; the token stream always ends with
exactly one `EOF` token. -/
def scanTokens : Nat → List Char → Nat → Nat → List Token
  | 0, _, line, col => [{ type := .EOF, value := "", line := line, column := col }]
  | _ + 1, [], line, col => [{ type := .EOF, value := "", line := line, column := col }]
  | f + 1, c :: cs, line, col =>
    if c == ' ' || c == '\t' || c == '\r' then scanTokens f cs line (col + 1)
    else if c == '\n' then scanTokens f cs (line + 1) 1
    else if c == '/' && headIs cs '/' then
      let body := (c :: cs).takeWhile (fun x => x != '\n')
      scanTokens f ((c :: cs).dropWhile (fun x => x != '\n')) line (col + body.length)
    else if c == '\x7b' && headIs cs '\x7b' then
      { type := .TEMPLATE_START, value := "\x7b\x7b", line := line, column := col } ::
        scanTokens f (cs.drop 1) line (col + 2)
    else if c == '\x7d' && headIs cs '\x7d' then
      { type := .TEMPLATE_END, value := "\x7d\x7d", line := line, column := col } ::
        scanTokens f (cs.drop 1) line (col + 2)
    else if c == '-' && headIs cs '>' then
      { type := .ARROW, value := "->", line := line, column := col } ::
        scanTokens f (cs.drop 1) line (col + 2)
    else if c == '=' && headIs cs '=' then
      { type := .EQ, value := "==", line := line, column := col } ::
        scanTokens f (cs.drop 1) line (col + 2)
    else if c == '!' && headIs cs '=' then
      { type := .NEQ, value := "!=", line := line, column := col } ::
        scanTokens f (cs.drop 1) line (col + 2)
    else if c == '<' && headIs cs '=' then
      { type := .LTE, value := "<=", line := line, column := col } ::
        scanTokens f (cs.drop 1) line (col + 2)
    else if c == '>' && headIs cs '=' then
      { type := .GTE, value := ">=", line := line, column := col } ::
        scanTokens f (cs.drop 1) line (col + 2)
    else if c == '"' || c == '\'' then
      let r := scanStr c (cs.length + 1) cs
      let content := String.mk r.1
      let consumed := (c :: cs).length - r.2.1.length
      let nl := r.1.count '\n'
      let tokType := if r.2.2 then TokenType.STRING else TokenType.ERROR
      { type := tokType, value := content, line := line, column := col } ::
        scanTokens f r.2.1 (line + nl) (col + consumed)
    else if c.isDigit then
      let intPart := (c :: cs).takeWhile Char.isDigit
      let rest1 := (c :: cs).dropWhile Char.isDigit
      let hasFrac :=
        match rest1 with
        | '.' :: d :: _ => d.isDigit
        | _ => false
      let text :=
        if hasFrac then intPart ++ '.' :: (rest1.drop 1).takeWhile Char.isDigit
        else intPart
      let rest2 := if hasFrac then (rest1.drop 1).dropWhile Char.isDigit else rest1
      { type := .NUMBER, value := String.mk text, line := line, column := col } ::
        scanTokens f rest2 line (col + text.length)
    else if isIdentStart c then
      let word := String.mk ((c :: cs).takeWhile isIdentChar)
      let tokType := (keywordType word).getD .IDENTIFIER
      { type := tokType, value := word, line := line, column := col } ::
        scanTokens f ((c :: cs).dropWhile isIdentChar) line (col + word.length)
    else
      match singleCharType c with
      | some t =>
        { type := t, value := String.singleton c, line := line, column := col } ::
          scanTokens f cs line (col + 1)
      | none =>
        { type := .ERROR, value := String.singleton c, line := line, column := col } ::
          scanTokens f cs line (col + 1)

/-- Modelled from the spec: `tokenize(source)` (`Lexer.tokenize`). -/
def tokenize (s : String) : List Token := scanTokens (s.length + 1) s.data 1 1

/-! ## Literal-plus-digits search (the `match(/... (\d+)/)` regexes) -/

/-- Value of a run of decimal digits (what `parseInt` returns on the
captured group of `(\d+)`). -/
def digitsToNat (ds : List Char) : Nat :=
  ds.foldl (fun a c => 10 * a + (c.toNat - 48)) 0

/-- First-match search for the regex `lit(\d+)`: scans left to right for
an occurrence of the literal `lit` followed by at least one digit, and
returns the value of the maximal digit run after it. -/
def findLitDigits (lit : List Char) : List Char → Option Nat
  | [] => none
  | c :: cs =>
    if lit.isPrefixOf (c :: cs) then
      let after := (c :: cs).drop lit.length
      match after with
      | d :: _ =>
        if d.isDigit then some (digitsToNat (after.takeWhile Char.isDigit))
        else findLitDigits lit cs
      | [] => findLitDigits lit cs
    else findLitDigits lit cs

/-- The `error.message.match(/at line (\d+)/)` extraction used by
`NoteGLanguageServer.analyze` (`server.ts:112`). -/
def extractLine (msg : String) : Option Nat :=
  findLitDigits "at line ".data msg.data

/-! ## Language server (`server.ts`) -/

/-- `TextDocumentItem` (`server.ts:40`). -/
structure TextDocumentItem where
  uri : String
  languageId : String
  version : Int
  text : String
deriving DecidableEq, Repr

/-- The `DocumentStore`'s backing `Map<string, TextDocumentItem>`
(`server.ts:50`), embedded as an insertion-ordered association list with
at most one entry per URI (the `Map` invariant). -/
abbrev DocumentStore := List TextDocumentItem

/-- `DocumentStore.get` (`server.ts:69`): `Map.get`. -/
def DocumentStore.get (s : DocumentStore) (uri : String) : Option TextDocumentItem :=
  s.find? (fun d => d.uri == uri)

/-- `DocumentStore.open` (`server.ts:53`): `Map.set` keyed by the
document's URI (replaces an existing entry, else appends).  Named
`openDoc` because `open` is reserved in Lean. -/
def DocumentStore.openDoc (s : DocumentStore) (doc : TextDocumentItem) : DocumentStore :=
  match s with
  | [] => [doc]
  | d :: rest => if d.uri == doc.uri then doc :: rest else d :: openDoc rest doc

/-- `DocumentStore.update` (`server.ts:57`): looks the URI up and, when
found, mutates that document's `text` and `version` in place; when the
URI is unknown nothing happens. -/
def DocumentStore.update (s : DocumentStore) (uri : String) (text : String)
    (version : Int) : DocumentStore :=
  match s with
  | [] => []
  | d :: rest =>
    if d.uri == uri then { d with text := text, version := version } :: rest
    else d :: update rest uri text version

/-- `DocumentStore.close` (`server.ts:65`): `Map.delete`. -/
def DocumentStore.close (s : DocumentStore) (uri : String) : DocumentStore :=
  match s with
  | [] => []
  | d :: rest => if d.uri == uri then rest else d :: close rest uri

/-- An LSP request position (`server.ts:12`); requests carry
non-negative line/character values. -/
structure Position where
  line : Nat
  character : Nat
deriving DecidableEq, Repr

/-- A diagnostic position; integer-valued because the server subtracts 1
from extracted line numbers. -/
structure DiagPos where
  line : Int
  character : Int
deriving DecidableEq, Repr

/-- `Range` (`server.ts:17`); the source's `end` field is `stop` here
because `end` is reserved in Lean. -/
structure Range where
  start : DiagPos
  stop : DiagPos
deriving DecidableEq, Repr

/-- `Diagnostic` (`server.ts:22`). -/
structure Diagnostic where
  range : Range
  message : String
  severity : Nat
  source : String
deriving DecidableEq, Repr

/-- `CompletionItem` (`server.ts:29`). -/
structure CompletionItem where
  label : String
  kind : Nat
  detail : Option String := none
  documentation : Option String := none
deriving DecidableEq, Repr

/-- The lexer-error loop of `NoteGLanguageServer.analyze`
(`server.ts:93`): every `ERROR` token becomes one diagnostic spanning
the token's text. -/
def lexerDiagnostics (tokens : List Token) : List Diagnostic :=
  tokens.filterMap fun t =>
    if t.type == .ERROR then
      some { range := { start := { line := (t.line : Int) - 1, character := (t.column : Int) - 1 },
                        stop := { line := (t.line : Int) - 1,
                                  character := (t.column : Int) + t.value.length - 1 } },
             message := "Unexpected character: " ++ t.value,
             severity := 1, source := "noteg" }
    else none

/-- The `catch` branch of `NoteGLanguageServer.analyze` (`server.ts:110`):
the 0-based line is extracted from the error message, defaulting to 0. -/
def parseFailureLine (e : PError) : Int :=
  match extractLine (errorMessage e) with
  | some n => (n : Int) - 1
  | none => 0

/-- The single diagnostic produced for a parse failure
(`server.ts:115`): column 0, fixed 100-character span, severity 1. -/
def parseFailureDiagnostic (e : PError) : Diagnostic :=
  { range := { start := { line := parseFailureLine e, character := 0 },
               stop := { line := parseFailureLine e, character := 100 } },
    message := errorMessage e, severity := 1, source := "noteg" }

/-- The `try` body of `NoteGLanguageServer.analyze` over an
already-scanned token list: lexer-error diagnostics, then an attempted
parse whose failure is caught and converted to one extra diagnostic. -/
def analyzeTokens (tokens : List Token) : List Diagnostic :=
  match parseTokens tokens with
  | .ok _ => lexerDiagnostics tokens
  | .error e => lexerDiagnostics tokens ++ [parseFailureDiagnostic e]

/-- `NoteGLanguageServer.analyze` (`server.ts:82`). -/
def analyze (store : DocumentStore) (uri : String) : List Diagnostic :=
  match store.get uri with
  | none => []
  | some doc => analyzeTokens (tokenize doc.text)

/-- The keyword completion table of `NoteGLanguageServer.getCompletions`
(`server.ts:135`). -/
def keywordCompletionTable : List (String × String) :=
  [("let", "Variable declaration"), ("fn", "Function definition"),
   ("if", "Conditional statement"), ("else", "Else branch"),
   ("for", "For loop"), ("while", "While loop"),
   ("return", "Return statement"), ("true", "Boolean true"),
   ("false", "Boolean false"), ("and", "Logical AND"),
   ("or", "Logical OR"), ("not", "Logical NOT")]

/-- The builtin completion table of `NoteGLanguageServer.getCompletions`
(`server.ts:159`). -/
def builtinCompletionTable : List (String × String × String) :=
  [("print", "Print to console", "print(value) - Outputs value to console"),
   ("len", "Get length", "len(array|string) - Returns the length")]

/-- `NoteGLanguageServer.getCompletions` (`server.ts:131`): pushes the 12
keyword items (kind 14) then the 2 builtin items (kind 3); neither the
store, the URI nor the position is consulted. -/
def getCompletions (store : DocumentStore) (uri : String) (position : Position) :
    List CompletionItem :=
  (keywordCompletionTable.map fun kw =>
    { label := kw.1, kind := 14, detail := some kw.2 }) ++
  (builtinCompletionTable.map fun fn =>
    { label := fn.1, kind := 3, detail := some fn.2.1, documentation := some fn.2.2 })

/-- One probe of the `/\w/.test(line[i])` loops in
`NoteGLanguageServer.getWordAtPosition` (`server.ts:201`).  Out of range,
JS evaluates `/\w/.test(undefined)`, which coerces to the string
`"undefined"` and therefore answers `true`. -/
def wordTest (line : List Char) (i : Nat) : Bool :=
  match line.get? i with
  | some ch => isIdentChar ch
  | none => true

/-- The backwards `while (start > 0 && ...) start--` loop. -/
def wordStart (line : List Char) : Nat → Nat
  | 0 => 0
  | i + 1 => if wordTest line i then wordStart line i else i + 1

/-- The forwards `while (end < line.length && ...) end++` loop. -/
def wordEnd (line : List Char) : Nat → Nat → Nat
  | 0, i => i
  | f + 1, i => if i < line.length && wordTest line i then wordEnd line f (i + 1) else i

/-- `NoteGLanguageServer.getWordAtPosition` (`server.ts:201`). -/
def getWordAtPosition (line : String) (character : Nat) : String :=
  let cs := line.data
  let start := wordStart cs character
  let stop := wordEnd cs (cs.length + 1) character
  String.mk ((cs.take stop).drop start)

/-- The keyword/builtin documentation table of
`NoteGLanguageServer.getHover` (`server.ts:187`). -/
def hoverDocs (w : String) : Option String :=
  if w == "let" then some "Variable declaration: `let name = value`"
  else if w == "fn" then some "Function definition: `fn name(params) \x7b body \x7d`"
  else if w == "if" then some "Conditional: `if condition \x7b then \x7d else \x7b else \x7d`"
  else if w == "for" then some "For loop: `for item in array \x7b body \x7d`"
  else if w == "while" then some "While loop: `while condition \x7b body \x7d`"
  else if w == "return" then some "Return from function: `return value`"
  else if w == "print" then some "Built-in function: `print(value)` - Output to console"
  else if w == "len" then some "Built-in function: `len(array|string)` - Get length"
  else none

/-- `NoteGLanguageServer.getHover` (`server.ts:177`). -/
def getHover (store : DocumentStore) (uri : String) (position : Position) :
    Option String :=
  match store.get uri with
  | none => none
  | some doc =>
    let lines := doc.text.splitOn "\n"
    let line := (lines.get? position.line).getD ""
    hoverDocs (getWordAtPosition line position.character)

/-! ## Stdio transport framing (`runStdio`, `server.ts:365`) -/

/-- Invariant of a parsing-function result: it is not the embedding's
fuel-exhaustion artifact, and on success the returned position is at
least `base` and at most `n` (the token count).  Functions that always
consume at least one token before succeeding use `base = pos + 1`; the
`while`-loop helpers, which may succeed without consuming, use
`base = pos`. -/
def parseOK {α : Type} (r : PRes α) (base n : Nat) : Prop :=
  r ≠ .error .outOfFuel ∧ ∀ a p, r = .ok (a, p) → base ≤ p ∧ p ≤ n

/-- Fuel adequacy at fuel `f`: every parsing function satisfies its
progress invariant whenever the fuel dominates `40·(remaining tokens)`
plus a per-function constant that decreases along same-position descent
chains of the grammar. -/
structure FuelOK (f : Nat) : Prop where
  expr : ∀ tk pos, pos ≤ List.length tk →
    40 * (List.length tk - pos) + 11 ≤ f →
    parseOK (expression f tk pos) (pos + 1) (List.length tk)
  orE : ∀ tk pos, pos ≤ List.length tk →
    40 * (List.length tk - pos) + 10 ≤ f →
    parseOK (orExpr f tk pos) (pos + 1) (List.length tk)
  orL : ∀ tk left pos, pos ≤ List.length tk →
    40 * (List.length tk - pos) + 10 ≤ f →
    parseOK (orLoop f tk left pos) pos (List.length tk)
  andE : ∀ tk pos, pos ≤ List.length tk →
    40 * (List.length tk - pos) + 9 ≤ f →
    parseOK (andExpr f tk pos) (pos + 1) (List.length tk)
  andL : ∀ tk left pos, pos ≤ List.length tk →
    40 * (List.length tk - pos) + 9 ≤ f →
    parseOK (andLoop f tk left pos) pos (List.length tk)
  eqE : ∀ tk pos, pos ≤ List.length tk →
    40 * (List.length tk - pos) + 8 ≤ f →
    parseOK (equality f tk pos) (pos + 1) (List.length tk)
  eqL : ∀ tk left pos, pos ≤ List.length tk →
    40 * (List.length tk - pos) + 8 ≤ f →
    parseOK (equalityLoop f tk left pos) pos (List.length tk)
  cmpE : ∀ tk pos, pos ≤ List.length tk →
    40 * (List.length tk - pos) + 7 ≤ f →
    parseOK (comparison f tk pos) (pos + 1) (List.length tk)
  cmpL : ∀ tk left pos, pos ≤ List.length tk →
    40 * (List.length tk - pos) + 7 ≤ f →
    parseOK (comparisonLoop f tk left pos) pos (List.length tk)
  termE : ∀ tk pos, pos ≤ List.length tk →
    40 * (List.length tk - pos) + 6 ≤ f →
    parseOK (term f tk pos) (pos + 1) (List.length tk)
  termL : ∀ tk left pos, pos ≤ List.length tk →
    40 * (List.length tk - pos) + 6 ≤ f →
    parseOK (termLoop f tk left pos) pos (List.length tk)
  factE : ∀ tk pos, pos ≤ List.length tk →
    40 * (List.length tk - pos) + 5 ≤ f →
    parseOK (factor f tk pos) (pos + 1) (List.length tk)
  factL : ∀ tk left pos, pos ≤ List.length tk →
    40 * (List.length tk - pos) + 5 ≤ f →
    parseOK (factorLoop f tk left pos) pos (List.length tk)
  unaryE : ∀ tk pos, pos ≤ List.length tk →
    40 * (List.length tk - pos) + 4 ≤ f →
    parseOK (unary f tk pos) (pos + 1) (List.length tk)
  callE : ∀ tk pos, pos ≤ List.length tk →
    40 * (List.length tk - pos) + 3 ≤ f →
    parseOK (callExpr f tk pos) (pos + 1) (List.length tk)
  callL : ∀ tk callee pos, pos ≤ List.length tk →
    40 * (List.length tk - pos) + 2 ≤ f →
    parseOK (callLoop f tk callee pos) pos (List.length tk)
  argsL : ∀ tk pos, pos ≤ List.length tk →
    40 * (List.length tk - pos) + 12 ≤ f →
    parseOK (argsLoop f tk pos) (pos + 1) (List.length tk)
  primE : ∀ tk pos, pos ≤ List.length tk →
    40 * (List.length tk - pos) + 1 ≤ f →
    parseOK (primary f tk pos) (pos + 1) (List.length tk)
  elemsL : ∀ tk pos, pos ≤ List.length tk →
    40 * (List.length tk - pos) + 12 ≤ f →
    parseOK (elemsLoop f tk pos) (pos + 1) (List.length tk)
  decl : ∀ tk pos, pos ≤ List.length tk →
    40 * (List.length tk - pos) + 14 ≤ f →
    parseOK (declaration f tk pos) (pos + 1) (List.length tk)
  letD : ∀ tk pos, pos ≤ List.length tk →
    40 * (List.length tk - pos) + 12 ≤ f →
    parseOK (letDeclaration f tk pos) (pos + 1) (List.length tk)
  fnD : ∀ tk pos, pos ≤ List.length tk →
    40 * (List.length tk - pos) + 12 ≤ f →
    parseOK (functionDeclaration f tk pos) (pos + 1) (List.length tk)
  paramsL : ∀ tk pos, pos ≤ List.length tk →
    40 * (List.length tk - pos) + 1 ≤ f →
    parseOK (paramsLoop f tk pos) (pos + 1) (List.length tk)
  stmt : ∀ tk pos, pos ≤ List.length tk →
    40 * (List.length tk - pos) + 13 ≤ f →
    parseOK (statement f tk pos) (pos + 1) (List.length tk)
  ifS : ∀ tk pos, pos ≤ List.length tk →
    40 * (List.length tk - pos) + 12 ≤ f →
    parseOK (ifStatement f tk pos) (pos + 1) (List.length tk)
  forS : ∀ tk pos, pos ≤ List.length tk →
    40 * (List.length tk - pos) + 12 ≤ f →
    parseOK (forStatement f tk pos) (pos + 1) (List.length tk)
  whileS : ∀ tk pos, pos ≤ List.length tk →
    40 * (List.length tk - pos) + 12 ≤ f →
    parseOK (whileStatement f tk pos) (pos + 1) (List.length tk)
  retS : ∀ tk pos, pos ≤ List.length tk →
    40 * (List.length tk - pos) + 12 ≤ f →
    parseOK (returnStatement f tk pos) (advancePos tk pos) (List.length tk)
  blockS : ∀ tk pos, pos ≤ List.length tk →
    40 * (List.length tk - pos) + 12 ≤ f →
    parseOK (block f tk pos) (pos + 1) (List.length tk)
  blockL : ∀ tk pos, pos ≤ List.length tk →
    40 * (List.length tk - pos) + 15 ≤ f →
    parseOK (blockLoop f tk pos) pos (List.length tk)
  parseL : ∀ tk pos, pos ≤ List.length tk →
    40 * (List.length tk - pos) + 15 ≤ f →
    parseOK (parseLoop f tk pos) pos (List.length tk)

/-! ## Claim theorems -/

/-- Shorthand token constructor used in concrete statements. -/
def mkTok (t : TokenType) (v : String) (line col : Nat) : Token :=
  { type := t, value := v, line := line, column := col }

/-- The token sequence of `for x <slot> items { }` where the identifier
in the `in` slot has text `w` (used to state C1). -/
def forSlotToks (w : String) : List Token :=
  [mkTok .FOR "for" 1 1, mkTok .IDENTIFIER "x" 1 5,
   mkTok .IDENTIFIER w 1 7, mkTok .IDENTIFIER "items" 1 11,
   mkTok .LBRACE "\x7b" 1 17, mkTok .RBRACE "\x7d" 1 19, mkTok .EOF "" 1 20]

/-- The scanner's output on `for x yyy items \x7b \x7d` is the `w = "yyy"`
instance of `forSlotToks`. -/
theorem tokenize_for_yyy : tokenize "for x yyy items \x7b \x7d" = forSlotToks "yyy" := rfl

/-- The scanner's output on `for x in items \x7b \x7d`: the word `in` is
not in the keyword table and scans as an identifier. -/
theorem tokenize_for_in :
    tokenize "for x in items \x7b \x7d" =
      [mkTok .FOR "for" 1 1, mkTok .IDENTIFIER "x" 1 5,
       mkTok .IDENTIFIER "in" 1 7, mkTok .IDENTIFIER "items" 1 10,
       mkTok .LBRACE "\x7b" 1 16, mkTok .RBRACE "\x7d" 1 18, mkTok .EOF "" 1 19] := rfl

set_option maxHeartbeats 4000000 in
/-- C1: `Parser.forStatement` consumes the token in the `in` slot purely
positionally, by kind `IDENTIFIER`, never comparing its text: with any
identifier text `w` in that slot the same `For` node is produced, and the
source `for x yyy items { }` parses to the same node as
`for x in items { }`. -/
theorem forStatement_in_slot_positional :
    (∀ w : String,
      parseTokens (forSlotToks w) =
        .ok (.Program [.For "x" (.Identifier "items") (.Block [])])) ∧
    parseTokens (tokenize "for x yyy items \x7b \x7d") =
      parseTokens (tokenize "for x in items \x7b \x7d") := by
  refine ⟨fun _ => rfl, ?_⟩
  rw [tokenize_for_yyy, tokenize_for_in]
  rw [show parseTokens (forSlotToks "yyy") =
        .ok (.Program [.For "x" (.Identifier "items") (.Block [])]) from rfl]
  rw [show parseTokens
        [mkTok .FOR "for" 1 1, mkTok .IDENTIFIER "x" 1 5,
         mkTok .IDENTIFIER "in" 1 7, mkTok .IDENTIFIER "items" 1 10,
         mkTok .LBRACE "\x7b" 1 16, mkTok .RBRACE "\x7d" 1 18, mkTok .EOF "" 1 19] =
        .ok (.Program [.For "x" (.Identifier "items") (.Block [])]) from rfl]

/-- The scanner's output on `let x = 1 + 2 * 3`. -/
theorem tokenize_plus_star :
    tokenize "let x = 1 + 2 * 3" =
      [mkTok .LET "let" 1 1, mkTok .IDENTIFIER "x" 1 5, mkTok .ASSIGN "=" 1 7,
       mkTok .NUMBER "1" 1 9, mkTok .PLUS "+" 1 11, mkTok .NUMBER "2" 1 13,
       mkTok .STAR "*" 1 15, mkTok .NUMBER "3" 1 17, mkTok .EOF "" 1 18] := rfl

/-- The scanner's output on `let x = a and b or c`. -/
theorem tokenize_and_or :
    tokenize "let x = a and b or c" =
      [mkTok .LET "let" 1 1, mkTok .IDENTIFIER "x" 1 5, mkTok .ASSIGN "=" 1 7,
       mkTok .IDENTIFIER "a" 1 9, mkTok .AND "and" 1 11, mkTok .IDENTIFIER "b" 1 15,
       mkTok .OR "or" 1 17, mkTok .IDENTIFIER "c" 1 20, mkTok .EOF "" 1 21] := rfl

/-- The scanner's output on `let x = 1 - 2 - 3`. -/
theorem tokenize_minus_minus :
    tokenize "let x = 1 - 2 - 3" =
      [mkTok .LET "let" 1 1, mkTok .IDENTIFIER "x" 1 5, mkTok .ASSIGN "=" 1 7,
       mkTok .NUMBER "1" 1 9, mkTok .MINUS "-" 1 11, mkTok .NUMBER "2" 1 13,
       mkTok .MINUS "-" 1 15, mkTok .NUMBER "3" 1 17, mkTok .EOF "" 1 18] := rfl

set_option maxHeartbeats 4000000 in
/-- C5: binding-power and associativity examples from the spec:
`1 + 2 * 3` groups as `1 + (2 * 3)`, `a and b or c` groups as
`(a and b) or c`, and binary levels are left-associative
(`1 - 2 - 3` groups as `(1 - 2) - 3`). -/
theorem expression_precedence_examples :
    parseTokens (tokenize "let x = 1 + 2 * 3") =
      .ok (.Program [.Let "x"
        (.BinaryExpr "+" (.Literal (.num "1"))
          (.BinaryExpr "*" (.Literal (.num "2")) (.Literal (.num "3"))))]) ∧
    parseTokens (tokenize "let x = a and b or c") =
      .ok (.Program [.Let "x"
        (.BinaryExpr "or"
          (.BinaryExpr "and" (.Identifier "a") (.Identifier "b"))
          (.Identifier "c"))]) ∧
    parseTokens (tokenize "let x = 1 - 2 - 3") =
      .ok (.Program [.Let "x"
        (.BinaryExpr "-"
          (.BinaryExpr "-" (.Literal (.num "1")) (.Literal (.num "2")))
          (.Literal (.num "3")))]) := by
  refine ⟨?_, ?_, ?_⟩
  · rw [tokenize_plus_star]; rfl
  · rw [tokenize_and_or]; rfl
  · rw [tokenize_minus_minus]; rfl

/-- C7: `Parser.returnStatement` omits the value exactly when the token
after `return` is a closing brace or end-of-input, and otherwise parses
an expression as the value. -/
theorem returnStatement_value_presence (tk : List Token) (pos f : Nat)
    (hret : (peekT tk pos).type = .RETURN) :
    (((peekT tk (pos + 1)).type = .RBRACE ∨ (peekT tk (pos + 1)).type = .EOF) →
       returnStatement (f + 1) tk pos = .ok (.Return none, pos + 1)) ∧
    (¬((peekT tk (pos + 1)).type = .RBRACE ∨ (peekT tk (pos + 1)).type = .EOF) →
       returnStatement (f + 1) tk pos =
         (expression f tk (pos + 1)).map (fun r => (.Return (some r.1), r.2))) := by
  have hadv : advancePos tk pos = pos + 1 := by
    simp [advancePos, isAtEndT, hret]
  constructor
  · intro h
    rcases h with h | h
    · simp [returnStatement, hadv, checkT, isAtEndT, h]
    · simp [returnStatement, hadv, checkT, isAtEndT, h]
  · intro h
    push_neg at h
    simp [returnStatement, hadv, checkT, isAtEndT, h.1, h.2]
    cases expression f tk (pos + 1) with
    | error e => rfl
    | ok r => rfl

/-- Witness for C7 at a concrete input: `return` directly followed by a
closing brace yields a value-less `Return` node. -/
theorem returnStatement_value_presence_witness :
    (peekT [{ type := .RETURN, value := "return", line := 1, column := 2 },
            { type := .RBRACE, value := "\x7d", line := 1, column := 9 },
            { type := .EOF, value := "", line := 1, column := 10 }] 0).type = .RETURN ∧
    returnStatement 11
      [{ type := .RETURN, value := "return", line := 1, column := 2 },
       { type := .RBRACE, value := "\x7d", line := 1, column := 9 },
       { type := .EOF, value := "", line := 1, column := 10 }] 0 =
      .ok (.Return none, 1) :=
  ⟨rfl,
   (returnStatement_value_presence
      [{ type := .RETURN, value := "return", line := 1, column := 2 },
       { type := .RBRACE, value := "\x7d", line := 1, column := 9 },
       { type := .EOF, value := "", line := 1, column := 10 }] 0 10 rfl).1
     (Or.inl rfl)⟩

/-- C8: `getCompletions` returns the same fixed 14-item list — the 12
keywords (kind 14) followed by the builtins `print` and `len` (kind 3) —
for every store, URI and cursor position. -/
theorem getCompletions_fixed (store : DocumentStore) (uri : String)
    (position : Position) :
    getCompletions store uri position =
      [{ label := "let", kind := 14, detail := some "Variable declaration" },
       { label := "fn", kind := 14, detail := some "Function definition" },
       { label := "if", kind := 14, detail := some "Conditional statement" },
       { label := "else", kind := 14, detail := some "Else branch" },
       { label := "for", kind := 14, detail := some "For loop" },
       { label := "while", kind := 14, detail := some "While loop" },
       { label := "return", kind := 14, detail := some "Return statement" },
       { label := "true", kind := 14, detail := some "Boolean true" },
       { label := "false", kind := 14, detail := some "Boolean false" },
       { label := "and", kind := 14, detail := some "Logical AND" },
       { label := "or", kind := 14, detail := some "Logical OR" },
       { label := "not", kind := 14, detail := some "Logical NOT" },
       { label := "print", kind := 3, detail := some "Print to console",
         documentation := some "print(value) - Outputs value to console" },
       { label := "len", kind := 3, detail := some "Get length",
         documentation := some "len(array|string) - Returns the length" }] :=
  rfl

/-- C10: for a URI not in the store, `analyze` returns no diagnostics and
`getHover` returns null, without failing. -/
theorem unknown_uri_analyze_hover (store : DocumentStore) (uri : String)
    (position : Position) (h : store.get uri = none) :
    analyze store uri = [] ∧ getHover store uri position = none := by
  refine ⟨?_, ?_⟩ <;> simp [analyze, getHover, h]

/-- C6: `DocumentStore.update` replaces exactly the text and version of
the document at the given URI when it is present (all other lookups are
unchanged), and leaves the store completely unchanged when the URI is
unknown. -/
theorem update_replaces_exactly (s : DocumentStore) (uri text : String)
    (version : Int) :
    (∀ d, DocumentStore.get s uri = some d →
      DocumentStore.get (DocumentStore.update s uri text version) uri =
        some { d with text := text, version := version } ∧
      ∀ u', u' ≠ uri →
        DocumentStore.get (DocumentStore.update s uri text version) u' =
          DocumentStore.get s u') ∧
    (DocumentStore.get s uri = none →
      DocumentStore.update s uri text version = s) := by
  induction s with
  | nil =>
    exact ⟨fun d hd => by simp [DocumentStore.get] at hd, fun _ => rfl⟩
  | cons d0 rest ih =>
    by_cases h0 : d0.uri = uri
    · have hbe : (d0.uri == uri) = true := beq_iff_eq.mpr h0
      refine ⟨fun d hd => ?_, fun hn => ?_⟩
      · have hd0 : d0 = d := by
          simpa [DocumentStore.get, List.find?, hbe] using hd
        refine ⟨?_, fun u' hu' => ?_⟩
        · simp [DocumentStore.update, DocumentStore.get, List.find?, hbe, ← hd0]
        · have hbu0 : (d0.uri == u') = false :=
            beq_eq_false_iff_ne.mpr (fun h => hu' (h0 ▸ h).symm)
          have hbu : (uri == u') = false :=
            beq_eq_false_iff_ne.mpr (fun h => hu' h.symm)
          simp [DocumentStore.update, DocumentStore.get, List.find?, hbe, hbu0, hbu, h0]
      · simp [DocumentStore.get, List.find?, hbe] at hn
    · have hbe : (d0.uri == uri) = false := beq_eq_false_iff_ne.mpr h0
      refine ⟨fun d hd => ?_, fun hn => ?_⟩
      · have hd' : DocumentStore.get rest uri = some d := by
          simpa [DocumentStore.get, List.find?, hbe] using hd
        obtain ⟨hA, hB⟩ := ih.1 d hd'
        refine ⟨?_, fun u' hu' => ?_⟩
        · simpa [DocumentStore.update, DocumentStore.get, List.find?, hbe] using hA
        · cases hc : (d0.uri == u') with
          | true =>
            simp [DocumentStore.update, DocumentStore.get, List.find?, hbe, hc]
          | false =>
            simpa [DocumentStore.update, DocumentStore.get, List.find?, hbe, hc]
              using hB u' hu'
      · have hn' : DocumentStore.get rest uri = none := by
          simpa [DocumentStore.get, List.find?, hbe] using hn
        simp [DocumentStore.update, hbe, ih.2 hn']

/-- Witness for C6 on a concrete two-document store: updating `a` swaps in
the new text and version there and leaves `b`'s lookup untouched. -/
theorem update_replaces_exactly_witness :
    DocumentStore.get
      [{ uri := "a", languageId := "noteg", version := 1, text := "t1" },
       { uri := "b", languageId := "noteg", version := 1, text := "t2" }] "a" =
      some { uri := "a", languageId := "noteg", version := 1, text := "t1" } ∧
    DocumentStore.get
      (DocumentStore.update
        [{ uri := "a", languageId := "noteg", version := 1, text := "t1" },
         { uri := "b", languageId := "noteg", version := 1, text := "t2" }]
        "a" "new" 2) "a" =
      some { uri := "a", languageId := "noteg", version := 2, text := "new" } ∧
    DocumentStore.get
      (DocumentStore.update
        [{ uri := "a", languageId := "noteg", version := 1, text := "t1" },
         { uri := "b", languageId := "noteg", version := 1, text := "t2" }]
        "a" "new" 2) "b" =
      DocumentStore.get
        [{ uri := "a", languageId := "noteg", version := 1, text := "t1" },
         { uri := "b", languageId := "noteg", version := 1, text := "t2" }] "b" := by
  refine ⟨rfl, ?_, ?_⟩
  · exact ((update_replaces_exactly
      [{ uri := "a", languageId := "noteg", version := 1, text := "t1" },
       { uri := "b", languageId := "noteg", version := 1, text := "t2" }]
      "a" "new" 2).1 _ rfl).1
  · exact ((update_replaces_exactly
      [{ uri := "a", languageId := "noteg", version := 1, text := "t1" },
       { uri := "b", languageId := "noteg", version := 1, text := "t2" }]
      "a" "new" 2).1 _ rfl).2 "b" (by decide)

/-- C2: when the stored document's text fails to parse, `analyze` catches
the failure and appends exactly one diagnostic after the lexer-error
diagnostics: severity 1, starting at column 0 with a 100-character span,
on the 0-based line extracted from the error message's `at line N` text,
or line 0 when the message embeds no line number. -/
theorem analyze_parse_failure (store : DocumentStore) (uri : String)
    (doc : TextDocumentItem) (e : PError)
    (hdoc : store.get uri = some doc)
    (herr : parseTokens (tokenize doc.text) = .error e) :
    analyze store uri =
      lexerDiagnostics (tokenize doc.text) ++
        [{ range := { start := { line := (match extractLine (errorMessage e) with
                                          | some n => (n : Int) - 1
                                          | none => 0), character := 0 },
                      stop := { line := (match extractLine (errorMessage e) with
                                         | some n => (n : Int) - 1
                                         | none => 0), character := 100 } },
           message := errorMessage e, severity := 1, source := "noteg" }] := by
  simp [analyze, hdoc, analyzeTokens, herr, parseFailureDiagnostic, parseFailureLine]

/-- Witness for C2 on a store holding the unparsable text `let`: the
failure message carries `at line 1`, so the single extra diagnostic lands
on 0-based line 0 with the fixed 100-character span. -/
theorem analyze_parse_failure_witness :
    DocumentStore.get
      [{ uri := "file:///m.ng", languageId := "noteg", version := 1, text := "let" }]
      "file:///m.ng" =
      some { uri := "file:///m.ng", languageId := "noteg", version := 1, text := "let" } ∧
    parseTokens (tokenize "let") = .error (.expectedTok "Expected variable name" 1) ∧
    analyze
      [{ uri := "file:///m.ng", languageId := "noteg", version := 1, text := "let" }]
      "file:///m.ng" =
      [{ range := { start := { line := 0, character := 0 },
                    stop := { line := 0, character := 100 } },
         message := "Expected variable name at line 1",
         severity := 1, source := "noteg" }] := by
  refine ⟨rfl, rfl, ?_⟩
  rw [analyze_parse_failure
    [{ uri := "file:///m.ng", languageId := "noteg", version := 1, text := "let" }]
    "file:///m.ng"
    { uri := "file:///m.ng", languageId := "noteg", version := 1, text := "let" }
    (.expectedTok "Expected variable name" 1) rfl rfl]
  rfl

/-- C3 counterexample: on the malformed token sequence `[+ EOF]` the parse
aborts in `Parser.primary` with `Unexpected token: <type>`, an error that
does not carry the offending token's line: the same error value is
produced whether the token sits on line 7 or line 9, and its message
embeds no `at line N` text for the diagnostic extraction to find. -/
theorem parse_error_missing_line_cex :
    parseTokens [mkTok .PLUS "+" 7 1, mkTok .EOF "" 7 2] =
      .error (.unexpectedToken .PLUS) ∧
    parseTokens [mkTok .PLUS "+" 9 1, mkTok .EOF "" 9 2] =
      .error (.unexpectedToken .PLUS) ∧
    extractLine (errorMessage (.unexpectedToken .PLUS)) = none :=
  ⟨rfl, rfl, rfl⟩

/-- C3 (amended): a malformed token sequence aborts the parse with an
error and no tree; an error raised by `Parser.consume` (missing expected
token) carries the offending token's line and embeds it in the message as
`at line N`, while the `Unexpected token` error raised by `Parser.primary`
carries only the token's kind and no line number. -/
theorem parse_error_reporting_amended :
    (∀ l1 l2 : Nat,
      parseTokens [mkTok .LET "let" l1 1, mkTok .EOF "" l2 4] =
        .error (.expectedTok "Expected variable name" l2)) ∧
    (∀ l : Nat,
      parseTokens [mkTok .PLUS "+" l 1, mkTok .EOF "" l 2] =
        .error (.unexpectedToken .PLUS)) ∧
    (∀ t : TokenType, extractLine (errorMessage (.unexpectedToken t)) = none) ∧
    extractLine (errorMessage (.expectedTok "Expected variable name" 7)) = some 7 := by
  refine ⟨fun l1 l2 => rfl, fun l => rfl, ?_, rfl⟩
  intro t
  cases t <;> rfl

/-- If the parser is not at end, the position is a real index. -/
theorem notAtEnd_lt (tk : List Token) (pos : Nat)
    (h : isAtEndT tk pos = false) : pos < tk.length := by
  by_contra hge
  push_neg at hge
  unfold isAtEndT peekT at h
  rw [List.getD_eq_default _ _ hge] at h
  simp [eofDefault] at h

/-- A successful `check` means the position is a real index. -/
theorem checkT_lt (tk : List Token) (pos : Nat) (t : TokenType)
    (h : checkT tk pos t = true) : pos < tk.length := by
  unfold checkT at h
  rw [Bool.and_eq_true] at h
  exact notAtEnd_lt tk pos (by simpa using h.1)

/-- A successful `check` means the parser is not at end. -/
theorem checkT_not_atEnd (tk : List Token) (pos : Nat) (t : TokenType)
    (h : checkT tk pos t = true) : isAtEndT tk pos = false := by
  unfold checkT at h
  rw [Bool.and_eq_true] at h
  simpa using h.1

/-- `advance` moves forward by at most one and stays within bounds. -/
theorem advancePos_facts (tk : List Token) (pos : Nat) (hpos : pos ≤ tk.length) :
    pos ≤ advancePos tk pos ∧ advancePos tk pos ≤ pos + 1 ∧
      advancePos tk pos ≤ tk.length := by
  unfold advancePos
  by_cases h : isAtEndT tk pos = true
  · rw [if_pos h]
    exact ⟨le_refl _, by omega, hpos⟩
  · rw [if_neg h]
    have := notAtEnd_lt tk pos (by simpa using h)
    exact ⟨by omega, le_refl _, by omega⟩

/-- A successful `consume` advances by exactly one from a real index. -/
theorem consumeT_ok_facts (tk : List Token) (pos : Nat) (t : TokenType)
    (msg : String) (tok : Token) (p : Nat)
    (h : consumeT tk pos t msg = .ok (tok, p)) :
    p = pos + 1 ∧ pos < tk.length := by
  unfold consumeT at h
  by_cases hc : checkT tk pos t = true
  · rw [if_pos hc] at h
    have h2 := Except.ok.inj h
    have h3 : pos + 1 = p := congrArg Prod.snd h2
    exact ⟨h3.symm, checkT_lt tk pos t hc⟩
  · rw [if_neg hc] at h
    exact Except.noConfusion h

/-- A failing `consume` raises the missing-token error, never the fuel
artifact. -/
theorem consumeT_error_ne (tk : List Token) (pos : Nat) (t : TokenType)
    (msg : String) (e : PError) (h : consumeT tk pos t msg = .error e) :
    e ≠ .outOfFuel := by
  unfold consumeT at h
  by_cases hc : checkT tk pos t = true
  · rw [if_pos hc] at h
    exact Except.noConfusion h
  · rw [if_neg hc] at h
    intro hcontra
    rw [← Except.error.inj h] at hcontra
    exact PError.noConfusion hcontra

/-- `parseOK` for an error result that is not the fuel artifact. -/
theorem parseOK_error {α : Type} {base n : Nat} {e : PError}
    (he : e ≠ PError.outOfFuel) : parseOK (α := α) (.error e) base n :=
  ⟨fun h => he (Except.error.inj h), fun a p h => Except.noConfusion h⟩

/-- `parseOK` for a successful result with in-range position. -/
theorem parseOK_ok {α : Type} {base n : Nat} {a : α} {p : Nat}
    (h1 : base ≤ p) (h2 : p ≤ n) : parseOK (.ok (a, p)) base n :=
  ⟨fun h => Except.noConfusion h, fun a' p' h => by
    have h3 := Except.ok.inj h
    have h4 : p = p' := congrArg Prod.snd h3
    exact ⟨h4 ▸ h1, h4 ▸ h2⟩⟩

/-- Extract the error side of `parseOK`. -/
theorem parseOK_error_ne {α : Type} {r : PRes α} {base n : Nat} {e : PError}
    (h : parseOK r base n) (hr : r = .error e) : e ≠ .outOfFuel :=
  fun he => h.1 (by rw [hr, he])

/-- Extract the success bounds of `parseOK`. -/
theorem parseOK_ok_bounds {α : Type} {r : PRes α} {base n : Nat} {a : α} {p : Nat}
    (h : parseOK r base n) (hr : r = .ok (a, p)) : base ≤ p ∧ p ≤ n :=
  h.2 a p hr

/-- Weaken the base of `parseOK`. -/
theorem parseOK_mono {α : Type} {r : PRes α} {b b' n : Nat}
    (h : parseOK r b n) (hb : b' ≤ b) : parseOK r b' n :=
  ⟨h.1, fun a p hp => ⟨le_trans hb (h.2 a p hp).1, (h.2 a p hp).2⟩⟩

/-! ### The fuel-adequacy induction, one step lemma per parsing function -/

/-- Step case for `expression`. -/
theorem stepExpr (f : Nat) (ih : FuelOK f) :
    ∀ tk pos, pos ≤ List.length tk → 40 * (List.length tk - pos) + 11 ≤ f + 1 →
    parseOK (expression (f + 1) tk pos) (pos + 1) (List.length tk) :=
  fun tk pos hpos hf => ih.orE tk pos hpos (by omega)

/-- Step case for `orExpr`. -/
theorem stepOrE (f : Nat) (ih : FuelOK f) :
    ∀ tk pos, pos ≤ List.length tk → 40 * (List.length tk - pos) + 10 ≤ f + 1 →
    parseOK (orExpr (f + 1) tk pos) (pos + 1) (List.length tk) := by
  intro tk pos hpos hf
  simp only [orExpr]
  have hsub := ih.andE tk pos hpos (by omega)
  cases hA : andExpr f tk pos with
  | error e => exact parseOK_error (parseOK_error_ne hsub hA)
  | ok lp =>
    obtain ⟨l, p⟩ := lp
    have hb := parseOK_ok_bounds hsub hA
    exact parseOK_mono (ih.orL tk l p hb.2 (by omega)) (by omega)

/-- Step case for `orLoop`. -/
theorem stepOrL (f : Nat) (ih : FuelOK f) :
    ∀ tk left pos, pos ≤ List.length tk → 40 * (List.length tk - pos) + 10 ≤ f + 1 →
    parseOK (orLoop (f + 1) tk left pos) pos (List.length tk) := by
  intro tk left pos hpos hf
  simp only [orLoop]
  by_cases hc : checkT tk pos .OR = true
  · rw [if_pos hc]
    have hlt := checkT_lt tk pos _ hc
    have hsub := ih.andE tk (pos + 1) (by omega) (by omega)
    cases hA : andExpr f tk (pos + 1) with
    | error e => exact parseOK_error (parseOK_error_ne hsub hA)
    | ok rp =>
      obtain ⟨r, p⟩ := rp
      have hb := parseOK_ok_bounds hsub hA
      exact parseOK_mono (ih.orL tk (.BinaryExpr "or" left r) p hb.2 (by omega)) (by omega)
  · rw [if_neg hc]
    exact parseOK_ok (le_refl pos) hpos

/-- Step case for `andExpr`. -/
theorem stepAndE (f : Nat) (ih : FuelOK f) :
    ∀ tk pos, pos ≤ List.length tk → 40 * (List.length tk - pos) + 9 ≤ f + 1 →
    parseOK (andExpr (f + 1) tk pos) (pos + 1) (List.length tk) := by
  intro tk pos hpos hf
  simp only [andExpr]
  have hsub := ih.eqE tk pos hpos (by omega)
  cases hA : equality f tk pos with
  | error e => exact parseOK_error (parseOK_error_ne hsub hA)
  | ok lp =>
    obtain ⟨l, p⟩ := lp
    have hb := parseOK_ok_bounds hsub hA
    exact parseOK_mono (ih.andL tk l p hb.2 (by omega)) (by omega)

/-- Step case for `andLoop`. -/
theorem stepAndL (f : Nat) (ih : FuelOK f) :
    ∀ tk left pos, pos ≤ List.length tk → 40 * (List.length tk - pos) + 9 ≤ f + 1 →
    parseOK (andLoop (f + 1) tk left pos) pos (List.length tk) := by
  intro tk left pos hpos hf
  simp only [andLoop]
  by_cases hc : checkT tk pos .AND = true
  · rw [if_pos hc]
    have hlt := checkT_lt tk pos _ hc
    have hsub := ih.eqE tk (pos + 1) (by omega) (by omega)
    cases hA : equality f tk (pos + 1) with
    | error e => exact parseOK_error (parseOK_error_ne hsub hA)
    | ok rp =>
      obtain ⟨r, p⟩ := rp
      have hb := parseOK_ok_bounds hsub hA
      exact parseOK_mono (ih.andL tk (.BinaryExpr "and" left r) p hb.2 (by omega)) (by omega)
  · rw [if_neg hc]
    exact parseOK_ok (le_refl pos) hpos

/-- Step case for `equality`. -/
theorem stepEqE (f : Nat) (ih : FuelOK f) :
    ∀ tk pos, pos ≤ List.length tk → 40 * (List.length tk - pos) + 8 ≤ f + 1 →
    parseOK (equality (f + 1) tk pos) (pos + 1) (List.length tk) := by
  intro tk pos hpos hf
  simp only [equality]
  have hsub := ih.cmpE tk pos hpos (by omega)
  cases hA : comparison f tk pos with
  | error e => exact parseOK_error (parseOK_error_ne hsub hA)
  | ok lp =>
    obtain ⟨l, p⟩ := lp
    have hb := parseOK_ok_bounds hsub hA
    exact parseOK_mono (ih.eqL tk l p hb.2 (by omega)) (by omega)

/-- Step case for `equalityLoop`. -/
theorem stepEqL (f : Nat) (ih : FuelOK f) :
    ∀ tk left pos, pos ≤ List.length tk → 40 * (List.length tk - pos) + 8 ≤ f + 1 →
    parseOK (equalityLoop (f + 1) tk left pos) pos (List.length tk) := by
  intro tk left pos hpos hf
  simp only [equalityLoop]
  by_cases hc : (checkT tk pos .EQ || checkT tk pos .NEQ) = true
  · rw [if_pos hc]
    have hlt : pos < List.length tk := by
      rw [Bool.or_eq_true] at hc
      rcases hc with h | h
      · exact checkT_lt tk pos _ h
      · exact checkT_lt tk pos _ h
    have hsub := ih.cmpE tk (pos + 1) (by omega) (by omega)
    cases hA : comparison f tk (pos + 1) with
    | error e => exact parseOK_error (parseOK_error_ne hsub hA)
    | ok rp =>
      obtain ⟨r, p⟩ := rp
      have hb := parseOK_ok_bounds hsub hA
      exact parseOK_mono
        (ih.eqL tk (.BinaryExpr (peekT tk pos).value left r) p hb.2 (by omega)) (by omega)
  · rw [if_neg hc]
    exact parseOK_ok (le_refl pos) hpos

/-- Step case for `comparison`. -/
theorem stepCmpE (f : Nat) (ih : FuelOK f) :
    ∀ tk pos, pos ≤ List.length tk → 40 * (List.length tk - pos) + 7 ≤ f + 1 →
    parseOK (comparison (f + 1) tk pos) (pos + 1) (List.length tk) := by
  intro tk pos hpos hf
  simp only [comparison]
  have hsub := ih.termE tk pos hpos (by omega)
  cases hA : term f tk pos with
  | error e => exact parseOK_error (parseOK_error_ne hsub hA)
  | ok lp =>
    obtain ⟨l, p⟩ := lp
    have hb := parseOK_ok_bounds hsub hA
    exact parseOK_mono (ih.cmpL tk l p hb.2 (by omega)) (by omega)

/-- Step case for `comparisonLoop`. -/
theorem stepCmpL (f : Nat) (ih : FuelOK f) :
    ∀ tk left pos, pos ≤ List.length tk → 40 * (List.length tk - pos) + 7 ≤ f + 1 →
    parseOK (comparisonLoop (f + 1) tk left pos) pos (List.length tk) := by
  intro tk left pos hpos hf
  simp only [comparisonLoop]
  by_cases hc : (checkT tk pos .LT || checkT tk pos .GT ||
      checkT tk pos .LTE || checkT tk pos .GTE) = true
  · rw [if_pos hc]
    have hlt : pos < List.length tk := by
      rw [Bool.or_eq_true, Bool.or_eq_true, Bool.or_eq_true] at hc
      rcases hc with ((h | h) | h) | h <;> exact checkT_lt tk pos _ h
    have hsub := ih.termE tk (pos + 1) (by omega) (by omega)
    cases hA : term f tk (pos + 1) with
    | error e => exact parseOK_error (parseOK_error_ne hsub hA)
    | ok rp =>
      obtain ⟨r, p⟩ := rp
      have hb := parseOK_ok_bounds hsub hA
      exact parseOK_mono
        (ih.cmpL tk (.BinaryExpr (peekT tk pos).value left r) p hb.2 (by omega)) (by omega)
  · rw [if_neg hc]
    exact parseOK_ok (le_refl pos) hpos

/-- Step case for `term`. -/
theorem stepTermE (f : Nat) (ih : FuelOK f) :
    ∀ tk pos, pos ≤ List.length tk → 40 * (List.length tk - pos) + 6 ≤ f + 1 →
    parseOK (term (f + 1) tk pos) (pos + 1) (List.length tk) := by
  intro tk pos hpos hf
  simp only [term]
  have hsub := ih.factE tk pos hpos (by omega)
  cases hA : factor f tk pos with
  | error e => exact parseOK_error (parseOK_error_ne hsub hA)
  | ok lp =>
    obtain ⟨l, p⟩ := lp
    have hb := parseOK_ok_bounds hsub hA
    exact parseOK_mono (ih.termL tk l p hb.2 (by omega)) (by omega)

/-- Step case for `termLoop`. -/
theorem stepTermL (f : Nat) (ih : FuelOK f) :
    ∀ tk left pos, pos ≤ List.length tk → 40 * (List.length tk - pos) + 6 ≤ f + 1 →
    parseOK (termLoop (f + 1) tk left pos) pos (List.length tk) := by
  intro tk left pos hpos hf
  simp only [termLoop]
  by_cases hc : (checkT tk pos .PLUS || checkT tk pos .MINUS) = true
  · rw [if_pos hc]
    have hlt : pos < List.length tk := by
      rw [Bool.or_eq_true] at hc
      rcases hc with h | h <;> exact checkT_lt tk pos _ h
    have hsub := ih.factE tk (pos + 1) (by omega) (by omega)
    cases hA : factor f tk (pos + 1) with
    | error e => exact parseOK_error (parseOK_error_ne hsub hA)
    | ok rp =>
      obtain ⟨r, p⟩ := rp
      have hb := parseOK_ok_bounds hsub hA
      exact parseOK_mono
        (ih.termL tk (.BinaryExpr (peekT tk pos).value left r) p hb.2 (by omega)) (by omega)
  · rw [if_neg hc]
    exact parseOK_ok (le_refl pos) hpos

/-- Step case for `factor`. -/
theorem stepFactE (f : Nat) (ih : FuelOK f) :
    ∀ tk pos, pos ≤ List.length tk → 40 * (List.length tk - pos) + 5 ≤ f + 1 →
    parseOK (factor (f + 1) tk pos) (pos + 1) (List.length tk) := by
  intro tk pos hpos hf
  simp only [factor]
  have hsub := ih.unaryE tk pos hpos (by omega)
  cases hA : unary f tk pos with
  | error e => exact parseOK_error (parseOK_error_ne hsub hA)
  | ok lp =>
    obtain ⟨l, p⟩ := lp
    have hb := parseOK_ok_bounds hsub hA
    exact parseOK_mono (ih.factL tk l p hb.2 (by omega)) (by omega)

/-- Step case for `factorLoop`. -/
theorem stepFactL (f : Nat) (ih : FuelOK f) :
    ∀ tk left pos, pos ≤ List.length tk → 40 * (List.length tk - pos) + 5 ≤ f + 1 →
    parseOK (factorLoop (f + 1) tk left pos) pos (List.length tk) := by
  intro tk left pos hpos hf
  simp only [factorLoop]
  by_cases hc : (checkT tk pos .STAR || checkT tk pos .SLASH ||
      checkT tk pos .PERCENT) = true
  · rw [if_pos hc]
    have hlt : pos < List.length tk := by
      rw [Bool.or_eq_true, Bool.or_eq_true] at hc
      rcases hc with (h | h) | h <;> exact checkT_lt tk pos _ h
    have hsub := ih.unaryE tk (pos + 1) (by omega) (by omega)
    cases hA : unary f tk (pos + 1) with
    | error e => exact parseOK_error (parseOK_error_ne hsub hA)
    | ok rp =>
      obtain ⟨r, p⟩ := rp
      have hb := parseOK_ok_bounds hsub hA
      exact parseOK_mono
        (ih.factL tk (.BinaryExpr (peekT tk pos).value left r) p hb.2 (by omega)) (by omega)
  · rw [if_neg hc]
    exact parseOK_ok (le_refl pos) hpos

/-- Step case for `unary`. -/
theorem stepUnaryE (f : Nat) (ih : FuelOK f) :
    ∀ tk pos, pos ≤ List.length tk → 40 * (List.length tk - pos) + 4 ≤ f + 1 →
    parseOK (unary (f + 1) tk pos) (pos + 1) (List.length tk) := by
  intro tk pos hpos hf
  simp only [unary]
  by_cases hc : (checkT tk pos .NOT || checkT tk pos .MINUS) = true
  · rw [if_pos hc]
    have hlt : pos < List.length tk := by
      rw [Bool.or_eq_true] at hc
      rcases hc with h | h <;> exact checkT_lt tk pos _ h
    have hsub := ih.unaryE tk (pos + 1) (by omega) (by omega)
    cases hA : unary f tk (pos + 1) with
    | error e => exact parseOK_error (parseOK_error_ne hsub hA)
    | ok rp =>
      obtain ⟨op, p⟩ := rp
      have hb := parseOK_ok_bounds hsub hA
      exact parseOK_ok (by omega) hb.2
  · rw [if_neg hc]
    exact ih.callE tk pos hpos (by omega)

/-- Step case for `callExpr`. -/
theorem stepCallE (f : Nat) (ih : FuelOK f) :
    ∀ tk pos, pos ≤ List.length tk → 40 * (List.length tk - pos) + 3 ≤ f + 1 →
    parseOK (callExpr (f + 1) tk pos) (pos + 1) (List.length tk) := by
  intro tk pos hpos hf
  simp only [callExpr]
  have hsub := ih.primE tk pos hpos (by omega)
  cases hA : primary f tk pos with
  | error e => exact parseOK_error (parseOK_error_ne hsub hA)
  | ok lp =>
    obtain ⟨e0, p⟩ := lp
    have hb := parseOK_ok_bounds hsub hA
    exact parseOK_mono (ih.callL tk e0 p hb.2 (by omega)) (by omega)

/-- Step case for `callLoop`. -/
theorem stepCallL (f : Nat) (ih : FuelOK f) :
    ∀ tk callee pos, pos ≤ List.length tk → 40 * (List.length tk - pos) + 2 ≤ f + 1 →
    parseOK (callLoop (f + 1) tk callee pos) pos (List.length tk) := by
  intro tk callee pos hpos hf
  simp only [callLoop]
  by_cases hc : checkT tk pos .LPAREN = true
  · rw [if_pos hc]
    have hlt := checkT_lt tk pos _ hc
    have hargs : parseOK
        (if checkT tk (pos + 1) .RPAREN then (.ok ([], pos + 1) : PRes (List AST))
         else argsLoop f tk (pos + 1)) (pos + 1) (List.length tk) := by
      by_cases hr : checkT tk (pos + 1) .RPAREN = true
      · rw [if_pos hr]
        exact parseOK_ok (le_refl _) (by omega)
      · rw [if_neg hr]
        exact parseOK_mono (ih.argsL tk (pos + 1) (by omega) (by omega)) (by omega)
    cases hA : (if checkT tk (pos + 1) .RPAREN then (.ok ([], pos + 1) : PRes (List AST))
        else argsLoop f tk (pos + 1)) with
    | error e => exact parseOK_error (parseOK_error_ne hargs hA)
    | ok ap =>
      obtain ⟨args, p⟩ := ap
      dsimp only
      have hb := parseOK_ok_bounds hargs hA
      cases hC : consumeT tk p .RPAREN "Expected ')' after arguments" with
      | error e => exact parseOK_error (consumeT_error_ne tk p _ _ e hC)
      | ok tp =>
        obtain ⟨t, p2⟩ := tp
        have hcf := consumeT_ok_facts tk p _ _ t p2 hC
        exact parseOK_mono (ih.callL tk (.Call callee args) p2 (by omega) (by omega))
          (by omega)
  · rw [if_neg hc]
    exact parseOK_ok (le_refl pos) hpos

/-- Step case for `argsLoop`. -/
theorem stepArgsL (f : Nat) (ih : FuelOK f) :
    ∀ tk pos, pos ≤ List.length tk → 40 * (List.length tk - pos) + 12 ≤ f + 1 →
    parseOK (argsLoop (f + 1) tk pos) (pos + 1) (List.length tk) := by
  intro tk pos hpos hf
  simp only [argsLoop]
  have hsub := ih.expr tk pos hpos (by omega)
  cases hA : expression f tk pos with
  | error e => exact parseOK_error (parseOK_error_ne hsub hA)
  | ok ap =>
    obtain ⟨a, p⟩ := ap
    dsimp only
    have hb := parseOK_ok_bounds hsub hA
    by_cases hc : checkT tk p .COMMA = true
    · rw [if_pos hc]
      have hlt := checkT_lt tk p _ hc
      have hrec := ih.argsL tk (p + 1) (by omega) (by omega)
      cases hR : argsLoop f tk (p + 1) with
      | error e => exact parseOK_error (parseOK_error_ne hrec hR)
      | ok rp =>
        obtain ⟨rest, p2⟩ := rp
        have hb2 := parseOK_ok_bounds hrec hR
        exact parseOK_ok (by omega) hb2.2
    · rw [if_neg hc]
      exact parseOK_ok hb.1 hb.2

/-- Step case for `primary`. -/
theorem stepPrimE (f : Nat) (ih : FuelOK f) :
    ∀ tk pos, pos ≤ List.length tk → 40 * (List.length tk - pos) + 1 ≤ f + 1 →
    parseOK (primary (f + 1) tk pos) (pos + 1) (List.length tk) := by
  intro tk pos hpos hf
  simp only [primary]
  by_cases h1 : checkT tk pos .TRUE = true
  · rw [if_pos h1]
    exact parseOK_ok (le_refl _) (by have := checkT_lt tk pos _ h1; omega)
  rw [if_neg h1]
  by_cases h2 : checkT tk pos .FALSE = true
  · rw [if_pos h2]
    exact parseOK_ok (le_refl _) (by have := checkT_lt tk pos _ h2; omega)
  rw [if_neg h2]
  by_cases h3 : checkT tk pos .NUMBER = true
  · rw [if_pos h3]
    exact parseOK_ok (le_refl _) (by have := checkT_lt tk pos _ h3; omega)
  rw [if_neg h3]
  by_cases h4 : checkT tk pos .STRING = true
  · rw [if_pos h4]
    exact parseOK_ok (le_refl _) (by have := checkT_lt tk pos _ h4; omega)
  rw [if_neg h4]
  by_cases h5 : checkT tk pos .IDENTIFIER = true
  · rw [if_pos h5]
    exact parseOK_ok (le_refl _) (by have := checkT_lt tk pos _ h5; omega)
  rw [if_neg h5]
  by_cases h6 : checkT tk pos .TEMPLATE_START = true
  · rw [if_pos h6]
    have hlt := checkT_lt tk pos _ h6
    cases hC1 : consumeT tk (pos + 1) .IDENTIFIER "Expected variable name" with
    | error e => exact parseOK_error (consumeT_error_ne tk (pos + 1) _ _ e hC1)
    | ok vp =>
      obtain ⟨v, p⟩ := vp
      dsimp only
      have hf1 := consumeT_ok_facts tk (pos + 1) _ _ v p hC1
      cases hC2 : consumeT tk p .TEMPLATE_END "Expected '\x7d\x7d'" with
      | error e => exact parseOK_error (consumeT_error_ne tk p _ _ e hC2)
      | ok tp =>
        obtain ⟨t, p2⟩ := tp
        have hf2 := consumeT_ok_facts tk p _ _ t p2 hC2
        exact parseOK_ok (by omega) (by omega)
  rw [if_neg h6]
  by_cases h7 : checkT tk pos .LBRACKET = true
  · rw [if_pos h7]
    have hlt := checkT_lt tk pos _ h7
    have hels : parseOK
        (if checkT tk (pos + 1) .RBRACKET then (.ok ([], pos + 1) : PRes (List AST))
         else elemsLoop f tk (pos + 1)) (pos + 1) (List.length tk) := by
      by_cases hr : checkT tk (pos + 1) .RBRACKET = true
      · rw [if_pos hr]
        exact parseOK_ok (le_refl _) (by omega)
      · rw [if_neg hr]
        exact parseOK_mono (ih.elemsL tk (pos + 1) (by omega) (by omega)) (by omega)
    cases hA : (if checkT tk (pos + 1) .RBRACKET then (.ok ([], pos + 1) : PRes (List AST))
        else elemsLoop f tk (pos + 1)) with
    | error e => exact parseOK_error (parseOK_error_ne hels hA)
    | ok ep =>
      obtain ⟨els, p⟩ := ep
      dsimp only
      have hb := parseOK_ok_bounds hels hA
      cases hC : consumeT tk p .RBRACKET "Expected ']'" with
      | error e => exact parseOK_error (consumeT_error_ne tk p _ _ e hC)
      | ok tp =>
        obtain ⟨t, p2⟩ := tp
        have hcf := consumeT_ok_facts tk p _ _ t p2 hC
        exact parseOK_ok (by omega) (by omega)
  rw [if_neg h7]
  by_cases h8 : checkT tk pos .LPAREN = true
  · rw [if_pos h8]
    have hlt := checkT_lt tk pos _ h8
    have hsub := ih.expr tk (pos + 1) (by omega) (by omega)
    cases hA : expression f tk (pos + 1) with
    | error e => exact parseOK_error (parseOK_error_ne hsub hA)
    | ok ep =>
      obtain ⟨e0, p⟩ := ep
      dsimp only
      have hb := parseOK_ok_bounds hsub hA
      cases hC : consumeT tk p .RPAREN "Expected ')'" with
      | error e => exact parseOK_error (consumeT_error_ne tk p _ _ e hC)
      | ok tp =>
        obtain ⟨t, p2⟩ := tp
        have hcf := consumeT_ok_facts tk p _ _ t p2 hC
        exact parseOK_ok (by omega) (by omega)
  rw [if_neg h8]
  exact parseOK_error (by intro hcontra; exact PError.noConfusion hcontra)

/-- Step case for `elemsLoop`. -/
theorem stepElemsL (f : Nat) (ih : FuelOK f) :
    ∀ tk pos, pos ≤ List.length tk → 40 * (List.length tk - pos) + 12 ≤ f + 1 →
    parseOK (elemsLoop (f + 1) tk pos) (pos + 1) (List.length tk) := by
  intro tk pos hpos hf
  simp only [elemsLoop]
  have hsub := ih.expr tk pos hpos (by omega)
  cases hA : expression f tk pos with
  | error e => exact parseOK_error (parseOK_error_ne hsub hA)
  | ok ap =>
    obtain ⟨a, p⟩ := ap
    dsimp only
    have hb := parseOK_ok_bounds hsub hA
    by_cases hc : checkT tk p .COMMA = true
    · rw [if_pos hc]
      have hlt := checkT_lt tk p _ hc
      have hrec := ih.elemsL tk (p + 1) (by omega) (by omega)
      cases hR : elemsLoop f tk (p + 1) with
      | error e => exact parseOK_error (parseOK_error_ne hrec hR)
      | ok rp =>
        obtain ⟨rest, p2⟩ := rp
        have hb2 := parseOK_ok_bounds hrec hR
        exact parseOK_ok (by omega) hb2.2
    · rw [if_neg hc]
      exact parseOK_ok hb.1 hb.2

/-- Step case for `declaration`. -/
theorem stepDecl (f : Nat) (ih : FuelOK f) :
    ∀ tk pos, pos ≤ List.length tk → 40 * (List.length tk - pos) + 14 ≤ f + 1 →
    parseOK (declaration (f + 1) tk pos) (pos + 1) (List.length tk) := by
  intro tk pos hpos hf
  simp only [declaration]
  by_cases h1 : checkT tk pos .LET = true
  · rw [if_pos h1]
    exact ih.letD tk pos hpos (by omega)
  rw [if_neg h1]
  by_cases h2 : checkT tk pos .FN = true
  · rw [if_pos h2]
    exact ih.fnD tk pos hpos (by omega)
  rw [if_neg h2]
  exact ih.stmt tk pos hpos (by omega)

/-- Step case for `letDeclaration`. -/
theorem stepLetD (f : Nat) (ih : FuelOK f) :
    ∀ tk pos, pos ≤ List.length tk → 40 * (List.length tk - pos) + 12 ≤ f + 1 →
    parseOK (letDeclaration (f + 1) tk pos) (pos + 1) (List.length tk) := by
  intro tk pos hpos hf
  simp only [letDeclaration]
  obtain ⟨ha1, ha2, ha3⟩ := advancePos_facts tk pos hpos
  cases hC1 : consumeT tk (advancePos tk pos) .IDENTIFIER "Expected variable name" with
  | error e => exact parseOK_error (consumeT_error_ne _ _ _ _ e hC1)
  | ok np =>
    obtain ⟨nameTok, p1⟩ := np
    dsimp only
    have hf1 := consumeT_ok_facts _ _ _ _ nameTok p1 hC1
    cases hC2 : consumeT tk p1 .ASSIGN "Expected '=' after variable name" with
    | error e => exact parseOK_error (consumeT_error_ne _ _ _ _ e hC2)
    | ok ap =>
      obtain ⟨a2, p2⟩ := ap
      dsimp only
      have hf2 := consumeT_ok_facts _ _ _ _ a2 p2 hC2
      have hsub := ih.expr tk p2 (by omega) (by omega)
      cases hA : expression f tk p2 with
      | error e => exact parseOK_error (parseOK_error_ne hsub hA)
      | ok vp =>
        obtain ⟨v, p3⟩ := vp
        have hb := parseOK_ok_bounds hsub hA
        exact parseOK_ok (by omega) hb.2

/-- Step case for `functionDeclaration`. -/
theorem stepFnD (f : Nat) (ih : FuelOK f) :
    ∀ tk pos, pos ≤ List.length tk → 40 * (List.length tk - pos) + 12 ≤ f + 1 →
    parseOK (functionDeclaration (f + 1) tk pos) (pos + 1) (List.length tk) := by
  intro tk pos hpos hf
  simp only [functionDeclaration]
  obtain ⟨ha1, ha2, ha3⟩ := advancePos_facts tk pos hpos
  cases hC1 : consumeT tk (advancePos tk pos) .IDENTIFIER "Expected function name" with
  | error e => exact parseOK_error (consumeT_error_ne _ _ _ _ e hC1)
  | ok np =>
    obtain ⟨nameTok, p1⟩ := np
    dsimp only
    have hf1 := consumeT_ok_facts _ _ _ _ nameTok p1 hC1
    cases hC2 : consumeT tk p1 .LPAREN "Expected '(' after function name" with
    | error e => exact parseOK_error (consumeT_error_ne _ _ _ _ e hC2)
    | ok lp =>
      obtain ⟨l2, p2⟩ := lp
      dsimp only
      have hf2 := consumeT_ok_facts _ _ _ _ l2 p2 hC2
      have hparams : parseOK
          (if checkT tk p2 .RPAREN then (.ok ([], p2) : Except PError (List String × Nat))
           else paramsLoop f tk p2) p2 (List.length tk) := by
        by_cases hr : checkT tk p2 .RPAREN = true
        · rw [if_pos hr]
          exact parseOK_ok (le_refl _) (by omega)
        · rw [if_neg hr]
          exact parseOK_mono (ih.paramsL tk p2 (by omega) (by omega)) (by omega)
      cases hP : (if checkT tk p2 .RPAREN then
          (.ok ([], p2) : Except PError (List String × Nat))
          else paramsLoop f tk p2) with
      | error e => exact parseOK_error (parseOK_error_ne hparams hP)
      | ok pp =>
        obtain ⟨params, p3⟩ := pp
        dsimp only
        have hb3 := parseOK_ok_bounds hparams hP
        cases hC4 : consumeT tk p3 .RPAREN "Expected ')' after parameters" with
        | error e => exact parseOK_error (consumeT_error_ne _ _ _ _ e hC4)
        | ok rp =>
          obtain ⟨r4, p4⟩ := rp
          dsimp only
          have hf4 := consumeT_ok_facts _ _ _ _ r4 p4 hC4
          have hblk := ih.blockS tk p4 (by omega) (by omega)
          cases hB : block f tk p4 with
          | error e => exact parseOK_error (parseOK_error_ne hblk hB)
          | ok bp =>
            obtain ⟨b, p5⟩ := bp
            have hb5 := parseOK_ok_bounds hblk hB
            exact parseOK_ok (by omega) hb5.2

/-- Step case for `paramsLoop`. -/
theorem stepParamsL (f : Nat) (ih : FuelOK f) :
    ∀ tk pos, pos ≤ List.length tk → 40 * (List.length tk - pos) + 1 ≤ f + 1 →
    parseOK (paramsLoop (f + 1) tk pos) (pos + 1) (List.length tk) := by
  intro tk pos hpos hf
  simp only [paramsLoop]
  cases hC : consumeT tk pos .IDENTIFIER "Expected parameter name" with
  | error e => exact parseOK_error (consumeT_error_ne _ _ _ _ e hC)
  | ok tp =>
    obtain ⟨t, p⟩ := tp
    dsimp only
    have hcf := consumeT_ok_facts _ _ _ _ t p hC
    by_cases hc : checkT tk p .COMMA = true
    · rw [if_pos hc]
      have hlt := checkT_lt tk p _ hc
      have hrec := ih.paramsL tk (p + 1) (by omega) (by omega)
      cases hR : paramsLoop f tk (p + 1) with
      | error e => exact parseOK_error (parseOK_error_ne hrec hR)
      | ok rp =>
        obtain ⟨rest, p2⟩ := rp
        have hb2 := parseOK_ok_bounds hrec hR
        exact parseOK_ok (by omega) hb2.2
    · rw [if_neg hc]
      exact parseOK_ok (by omega) (by omega)

/-- Step case for `statement`. -/
theorem stepStmt (f : Nat) (ih : FuelOK f) :
    ∀ tk pos, pos ≤ List.length tk → 40 * (List.length tk - pos) + 13 ≤ f + 1 →
    parseOK (statement (f + 1) tk pos) (pos + 1) (List.length tk) := by
  intro tk pos hpos hf
  simp only [statement]
  by_cases h1 : checkT tk pos .IF = true
  · rw [if_pos h1]
    exact ih.ifS tk pos hpos (by omega)
  rw [if_neg h1]
  by_cases h2 : checkT tk pos .FOR = true
  · rw [if_pos h2]
    exact ih.forS tk pos hpos (by omega)
  rw [if_neg h2]
  by_cases h3 : checkT tk pos .WHILE = true
  · rw [if_pos h3]
    exact ih.whileS tk pos hpos (by omega)
  rw [if_neg h3]
  by_cases h4 : checkT tk pos .RETURN = true
  · rw [if_pos h4]
    have hne := checkT_not_atEnd tk pos _ h4
    have hadv : advancePos tk pos = pos + 1 := by simp [advancePos, hne]
    have hr := ih.retS tk pos hpos (by omega)
    rw [hadv] at hr
    exact hr
  rw [if_neg h4]
  by_cases h5 : checkT tk pos .LBRACE = true
  · rw [if_pos h5]
    exact ih.blockS tk pos hpos (by omega)
  rw [if_neg h5]
  exact ih.expr tk pos hpos (by omega)

/-- Step case for `ifStatement`. -/
theorem stepIfS (f : Nat) (ih : FuelOK f) :
    ∀ tk pos, pos ≤ List.length tk → 40 * (List.length tk - pos) + 12 ≤ f + 1 →
    parseOK (ifStatement (f + 1) tk pos) (pos + 1) (List.length tk) := by
  intro tk pos hpos hf
  simp only [ifStatement]
  obtain ⟨ha1, ha2, ha3⟩ := advancePos_facts tk pos hpos
  have hsub := ih.expr tk (advancePos tk pos) ha3 (by omega)
  cases hA : expression f tk (advancePos tk pos) with
  | error e => exact parseOK_error (parseOK_error_ne hsub hA)
  | ok cp =>
    obtain ⟨c, p1⟩ := cp
    dsimp only
    have hb1 := parseOK_ok_bounds hsub hA
    have hblk := ih.blockS tk p1 hb1.2 (by omega)
    cases hB : block f tk p1 with
    | error e => exact parseOK_error (parseOK_error_ne hblk hB)
    | ok tp =>
      obtain ⟨t, p2⟩ := tp
      dsimp only
      have hb2 := parseOK_ok_bounds hblk hB
      by_cases hc : checkT tk p2 .ELSE = true
      · rw [if_pos hc]
        have hlt2 := checkT_lt tk p2 _ hc
        have helse : parseOK
            (if checkT tk (p2 + 1) .IF then ifStatement f tk (p2 + 1)
             else block f tk (p2 + 1)) (p2 + 2) (List.length tk) := by
          by_cases hif : checkT tk (p2 + 1) .IF = true
          · rw [if_pos hif]
            exact ih.ifS tk (p2 + 1) (by omega) (by omega)
          · rw [if_neg hif]
            exact ih.blockS tk (p2 + 1) (by omega) (by omega)
        cases hE : (if checkT tk (p2 + 1) .IF then ifStatement f tk (p2 + 1)
            else block f tk (p2 + 1)) with
        | error e => exact parseOK_error (parseOK_error_ne helse hE)
        | ok ep =>
          obtain ⟨els, p3⟩ := ep
          have hb3 := parseOK_ok_bounds helse hE
          exact parseOK_ok (by omega) hb3.2
      · rw [if_neg hc]
        exact parseOK_ok (by omega) hb2.2

/-- Step case for `forStatement`. -/
theorem stepForS (f : Nat) (ih : FuelOK f) :
    ∀ tk pos, pos ≤ List.length tk → 40 * (List.length tk - pos) + 12 ≤ f + 1 →
    parseOK (forStatement (f + 1) tk pos) (pos + 1) (List.length tk) := by
  intro tk pos hpos hf
  simp only [forStatement]
  obtain ⟨ha1, ha2, ha3⟩ := advancePos_facts tk pos hpos
  cases hC1 : consumeT tk (advancePos tk pos) .IDENTIFIER "Expected variable name" with
  | error e => exact parseOK_error (consumeT_error_ne _ _ _ _ e hC1)
  | ok vp =>
    obtain ⟨v, p1⟩ := vp
    dsimp only
    have hf1 := consumeT_ok_facts _ _ _ _ v p1 hC1
    cases hC2 : consumeT tk p1 .IDENTIFIER "Expected 'in'" with
    | error e => exact parseOK_error (consumeT_error_ne _ _ _ _ e hC2)
    | ok ip =>
      obtain ⟨i2, p2⟩ := ip
      dsimp only
      have hf2 := consumeT_ok_facts _ _ _ _ i2 p2 hC2
      have hsub := ih.expr tk p2 (by omega) (by omega)
      cases hA : expression f tk p2 with
      | error e => exact parseOK_error (parseOK_error_ne hsub hA)
      | ok itp =>
        obtain ⟨it, p3⟩ := itp
        dsimp only
        have hb3 := parseOK_ok_bounds hsub hA
        have hblk := ih.blockS tk p3 hb3.2 (by omega)
        cases hB : block f tk p3 with
        | error e => exact parseOK_error (parseOK_error_ne hblk hB)
        | ok bp =>
          obtain ⟨b, p4⟩ := bp
          have hb4 := parseOK_ok_bounds hblk hB
          exact parseOK_ok (by omega) hb4.2

/-- Step case for `whileStatement`. -/
theorem stepWhileS (f : Nat) (ih : FuelOK f) :
    ∀ tk pos, pos ≤ List.length tk → 40 * (List.length tk - pos) + 12 ≤ f + 1 →
    parseOK (whileStatement (f + 1) tk pos) (pos + 1) (List.length tk) := by
  intro tk pos hpos hf
  simp only [whileStatement]
  obtain ⟨ha1, ha2, ha3⟩ := advancePos_facts tk pos hpos
  have hsub := ih.expr tk (advancePos tk pos) ha3 (by omega)
  cases hA : expression f tk (advancePos tk pos) with
  | error e => exact parseOK_error (parseOK_error_ne hsub hA)
  | ok cp =>
    obtain ⟨c, p1⟩ := cp
    dsimp only
    have hb1 := parseOK_ok_bounds hsub hA
    have hblk := ih.blockS tk p1 hb1.2 (by omega)
    cases hB : block f tk p1 with
    | error e => exact parseOK_error (parseOK_error_ne hblk hB)
    | ok bp =>
      obtain ⟨b, p2⟩ := bp
      have hb2 := parseOK_ok_bounds hblk hB
      exact parseOK_ok (by omega) hb2.2

/-- Step case for `returnStatement`. -/
theorem stepRetS (f : Nat) (ih : FuelOK f) :
    ∀ tk pos, pos ≤ List.length tk → 40 * (List.length tk - pos) + 12 ≤ f + 1 →
    parseOK (returnStatement (f + 1) tk pos) (advancePos tk pos) (List.length tk) := by
  intro tk pos hpos hf
  simp only [returnStatement]
  obtain ⟨ha1, ha2, ha3⟩ := advancePos_facts tk pos hpos
  by_cases hc : (!checkT tk (advancePos tk pos) .RBRACE &&
      !isAtEndT tk (advancePos tk pos)) = true
  · rw [if_pos hc]
    have hsub := ih.expr tk (advancePos tk pos) ha3 (by omega)
    cases hA : expression f tk (advancePos tk pos) with
    | error e => exact parseOK_error (parseOK_error_ne hsub hA)
    | ok vp =>
      obtain ⟨v, p1⟩ := vp
      have hb1 := parseOK_ok_bounds hsub hA
      exact parseOK_ok (by omega) hb1.2
  · rw [if_neg hc]
    exact parseOK_ok (le_refl _) ha3

/-- Step case for `block`. -/
theorem stepBlockS (f : Nat) (ih : FuelOK f) :
    ∀ tk pos, pos ≤ List.length tk → 40 * (List.length tk - pos) + 12 ≤ f + 1 →
    parseOK (block (f + 1) tk pos) (pos + 1) (List.length tk) := by
  intro tk pos hpos hf
  simp only [block]
  cases hC : consumeT tk pos .LBRACE "Expected '\x7b'" with
  | error e => exact parseOK_error (consumeT_error_ne _ _ _ _ e hC)
  | ok tp =>
    obtain ⟨t0, p0⟩ := tp
    dsimp only
    have hcf := consumeT_ok_facts _ _ _ _ t0 p0 hC
    have hloop := ih.blockL tk p0 (by omega) (by omega)
    cases hL : blockLoop f tk p0 with
    | error e => exact parseOK_error (parseOK_error_ne hloop hL)
    | ok sp =>
      obtain ⟨sts, p1⟩ := sp
      dsimp only
      have hb1 := parseOK_ok_bounds hloop hL
      cases hC2 : consumeT tk p1 .RBRACE "Expected '\x7d'" with
      | error e => exact parseOK_error (consumeT_error_ne _ _ _ _ e hC2)
      | ok rp =>
        obtain ⟨t2, p2⟩ := rp
        have hcf2 := consumeT_ok_facts _ _ _ _ t2 p2 hC2
        exact parseOK_ok (by omega) (by omega)

/-- Step case for `blockLoop`. -/
theorem stepBlockL (f : Nat) (ih : FuelOK f) :
    ∀ tk pos, pos ≤ List.length tk → 40 * (List.length tk - pos) + 15 ≤ f + 1 →
    parseOK (blockLoop (f + 1) tk pos) pos (List.length tk) := by
  intro tk pos hpos hf
  simp only [blockLoop]
  by_cases hc : (!checkT tk pos .RBRACE && !isAtEndT tk pos) = true
  · rw [if_pos hc]
    have hlt : pos < List.length tk := by
      rw [Bool.and_eq_true] at hc
      have h2 : isAtEndT tk pos = false := by simpa using hc.2
      exact notAtEnd_lt tk pos h2
    have hdecl := ih.decl tk pos hpos (by omega)
    cases hD : declaration f tk pos with
    | error e => exact parseOK_error (parseOK_error_ne hdecl hD)
    | ok sp =>
      obtain ⟨s, p⟩ := sp
      dsimp only
      have hb := parseOK_ok_bounds hdecl hD
      have hrec := ih.blockL tk p hb.2 (by omega)
      cases hR : blockLoop f tk p with
      | error e => exact parseOK_error (parseOK_error_ne hrec hR)
      | ok rp =>
        obtain ⟨rest, p2⟩ := rp
        have hb2 := parseOK_ok_bounds hrec hR
        exact parseOK_ok (by omega) hb2.2
  · rw [if_neg hc]
    exact parseOK_ok (le_refl _) hpos

/-- Step case for `parseLoop`. -/
theorem stepParseL (f : Nat) (ih : FuelOK f) :
    ∀ tk pos, pos ≤ List.length tk → 40 * (List.length tk - pos) + 15 ≤ f + 1 →
    parseOK (parseLoop (f + 1) tk pos) pos (List.length tk) := by
  intro tk pos hpos hf
  simp only [parseLoop]
  by_cases hc : isAtEndT tk pos = true
  · rw [if_pos hc]
    exact parseOK_ok (le_refl _) hpos
  · rw [if_neg hc]
    have hlt := notAtEnd_lt tk pos (by simpa using hc)
    have hdecl := ih.decl tk pos hpos (by omega)
    cases hD : declaration f tk pos with
    | error e => exact parseOK_error (parseOK_error_ne hdecl hD)
    | ok sp =>
      obtain ⟨s, p⟩ := sp
      dsimp only
      have hb := parseOK_ok_bounds hdecl hD
      have hrec := ih.parseL tk p hb.2 (by omega)
      cases hR : parseLoop f tk p with
      | error e => exact parseOK_error (parseOK_error_ne hrec hR)
      | ok rp =>
        obtain ⟨rest, p2⟩ := rp
        have hb2 := parseOK_ok_bounds hrec hR
        exact parseOK_ok (by omega) hb2.2

/-- At fuel 0 every bound hypothesis is unsatisfiable. -/
theorem fuelOK_zero : FuelOK 0 := by
  constructor <;> (intros; exfalso; omega)

/-- Fuel adequacy holds at every fuel value. -/
theorem fuelOK (f : Nat) : FuelOK f := by
  induction f with
  | zero => exact fuelOK_zero
  | succ f ih =>
    exact ⟨stepExpr f ih, stepOrE f ih, stepOrL f ih, stepAndE f ih, stepAndL f ih,
      stepEqE f ih, stepEqL f ih, stepCmpE f ih, stepCmpL f ih, stepTermE f ih,
      stepTermL f ih, stepFactE f ih, stepFactL f ih, stepUnaryE f ih, stepCallE f ih,
      stepCallL f ih, stepArgsL f ih, stepPrimE f ih, stepElemsL f ih, stepDecl f ih,
      stepLetD f ih, stepFnD f ih, stepParamsL f ih, stepStmt f ih, stepIfS f ih,
      stepForS f ih, stepWhileS f ih, stepRetS f ih, stepBlockS f ih, stepBlockL f ih,
      stepParseL f ih⟩

/-- C9: for every finite token sequence ending in an end-of-input token,
the parse terminates: every parsing loop iteration either advances the
position or raises an error (the content of `FuelOK`), so the fuel budget
`parseBound` is never exhausted and `parseTokens` never returns the
embedding's `outOfFuel` artifact. -/
theorem parse_terminates (tk : List Token)
    (hEOF : (tk.getLast?).map Token.type = some .EOF) :
    parseTokens tk ≠ .error .outOfFuel := by
  intro hcontra
  unfold parseTokens at hcontra
  have hok := (fuelOK (parseBound tk)).parseL tk 0 (by omega)
    (by unfold parseBound; omega)
  cases hP : parseLoop (parseBound tk) tk 0 with
  | error e =>
    rw [hP] at hcontra
    exact parseOK_error_ne hok hP (Except.error.inj hcontra)
  | ok r =>
    obtain ⟨body, q⟩ := r
    rw [hP] at hcontra
    exact Except.noConfusion hcontra

/-- Witness for C9 on a concrete EOF-terminated token sequence. -/
theorem parse_terminates_witness :
    (([mkTok .RETURN "return" 1 1, mkTok .EOF "" 1 7] : List Token).getLast?).map
        Token.type = some .EOF ∧
    parseTokens [mkTok .RETURN "return" 1 1, mkTok .EOF "" 1 7] ≠
      .error .outOfFuel :=
  ⟨rfl, parse_terminates [mkTok .RETURN "return" 1 1, mkTok .EOF "" 1 7] rfl⟩

/-- Witness for C10 at the empty store. -/
theorem unknown_uri_analyze_hover_witness :
    DocumentStore.get [] "file:///missing.ng" = none ∧
    analyze [] "file:///missing.ng" = [] ∧
    getHover [] "file:///missing.ng" { line := 0, character := 0 } = none :=
  ⟨rfl,
   (unknown_uri_analyze_hover [] "file:///missing.ng"
      { line := 0, character := 0 } rfl).1,
   (unknown_uri_analyze_hover [] "file:///missing.ng"
      { line := 0, character := 0 } rfl).2⟩

end NoteG
